import Mathlib

/-!
Verification of the market-data ingestion pipeline
(`data-connectors-no-db-4`): rolling buffers, OHLC / univariate
aggregators, the CIL dispatch adapter, tick normalizers, the polling
loop and connector health snapshots.

Modelling conventions (shallow embedding of the TypeScript source):
* JS numbers carrying prices/volumes are modelled as rationals (`ℚ`);
  epoch-millisecond instants as `Int` (ISO strings and `Date` parsing
  are abstracted to the instant they denote).
* JS strings used as map keys are modelled as `List Char`; string
  keys are built exactly as in the source (label ++ "_" ++ decimal
  rendering of the window start).
* `Map` objects are association lists in insertion order, mirroring
  JS `Map` iteration semantics.
* `x || y` on possibly-absent numbers is modelled on `Option ℚ`
  (`none` = null/undefined, `some 0` is falsy, as in JS).
-/

namespace Conn

/-- JS `a || b` on optional numbers: first operand if truthy
(present and nonzero), else second operand. -/
def jsOr (a b : Option ℚ) : Option ℚ :=
  match a with
  | some v => if v = 0 then b else some v
  | none => b

/-- JS `size || 0` (used for tick sizes and volumes). -/
def jsOrZero (s : Option ℚ) : ℚ :=
  match s with
  | some v => v
  | none => 0

/-- JS `key.startsWith(pre)` on strings modelled as char lists. -/
def strStartsWith : List Char → List Char → Bool
  | _, [] => true
  | [], _ :: _ => false
  | a :: s, b :: p => a = b && strStartsWith s p

/-- JS `Map.get`. -/
def mapGet {V : Type} : List (List Char × V) → List Char → Option V
  | [], _ => none
  | e :: m, k => if e.1 = k then some e.2 else mapGet m k

/-- JS `Map.set` (update in place if the key exists, else append). -/
def mapSet {V : Type} : List (List Char × V) → List Char → V → List (List Char × V)
  | [], k, v => [(k, v)]
  | e :: m, k, v => if e.1 = k then (k, v) :: m else e :: mapSet m k v

/-- JS `Map.delete` (association lists never hold a key twice in
reachable states; we remove every binding of the key). -/
def mapDelete {V : Type} : List (List Char × V) → List Char → List (List Char × V)
  | [], _ => []
  | e :: m, k => if e.1 = k then mapDelete m k else e :: mapDelete m k

/-- In-place mutation of the object stored under a key
(`candle.high = …` on the value returned by `Map.get`). -/
def mapUpdate {V : Type} : List (List Char × V) → List Char → (V → V) → List (List Char × V)
  | [], _, _ => []
  | e :: m, k, f => if e.1 = k then (e.1, f e.2) :: m else e :: mapUpdate m k f

/-! ### Data model (src/types/index.ts) -/

/-- `NormalizedTick` — `ts` is the instant the ISO string denotes,
in epoch milliseconds. -/
structure NormalizedTick where
  ts : Int
  price : ℚ
  size : Option ℚ
  symbol : String
  exchange : String
  deriving DecidableEq, Repr

/-- `Candle` — `datetime` is the window start in epoch milliseconds. -/
structure Candle where
  datetime : Int
  open_ : ℚ
  high : ℚ
  low : ℚ
  close : ℚ
  volume : ℚ
  deriving DecidableEq, Repr

/-- `UnivariateDataPoint`. -/
structure UnivariateDataPoint where
  datetime : Int
  value : ℚ
  deriving DecidableEq, Repr

/-- `TimeframeConfig`. -/
structure TimeframeConfig where
  seconds : Nat
  label : List Char
  bufferSize : Nat
  deriving DecidableEq, Repr

/-! ### Rolling buffer (src/core/buffer.ts, src/core/univariateBuffer.ts)

The two buffer classes are verbatim copies of each other over their
record type; we embed them once, generically in the record type. -/

/-- State of a `Buffer` / `UnivariateBuffer`: fixed capacity and the
backing array. -/
structure BufState (α : Type) where
  maxSize : Nat
  candles : List α
  deriving DecidableEq, Repr

/-- `Buffer.push`: append; evict the single oldest record when the
capacity is exceeded. -/
def bufPush {α : Type} (b : BufState α) (c : α) : BufState α :=
  let cs := b.candles ++ [c]
  if b.maxSize < cs.length then { b with candles := cs.tail } else { b with candles := cs }

/-- `Buffer.getLast(count)`: `this.candles.slice(-count)`.  JS
`slice(-0)` is `slice(0)`, i.e. the whole array — hence the
`count = 0` branch. -/
def getLast {α : Type} (candles : List α) (count : Nat) : List α :=
  if count = 0 then candles else candles.drop (candles.length - count)

/-- `Buffer.size`. -/
def bufSize {α : Type} (b : BufState α) : Nat := b.candles.length

theorem getLast_zero {α : Type} (candles : List α) : getLast candles 0 = candles := rfl

theorem getLast_pos {α : Type} (candles : List α) (n : Nat) (hn : 1 ≤ n) :
    getLast candles n = candles.drop (candles.length - n) := by
  unfold getLast
  rw [if_neg (by omega)]

/-! ### OHLC aggregator (src/core/candleBuilder.ts) -/

/-- `CandleInProgress` (candleBuilder.ts, lines 4–12). -/
structure CandleInProgress where
  open_ : ℚ
  high : ℚ
  low : ℚ
  close : ℚ
  volume : ℚ
  startTime : Int
  lastUpdate : Int
  deriving DecidableEq, Repr

/-- The mutable state of a `CandleBuilder`: the in-progress map and
the per-label buffers (symbol and timeframes are immutable fields and
are passed as parameters). -/
structure BuilderState where
  candlesInProgress : List (List Char × CandleInProgress)
  buffers : List (List Char × BufState Candle)
  deriving DecidableEq, Repr

/-- `CandleBuilder.getWindowStart`: `Math.floor(timestamp / ms) * ms`
(floor division for JS `Math.floor` on reals). -/
def getWindowStart (timestamp : Int) (seconds : Nat) : Int :=
  let ms : Int := (seconds : Int) * 1000
  (Int.fdiv timestamp ms) * ms

/-- The template literal key `${tf.label}_${windowStart}`. -/
def mkKey (label : List Char) (windowStart : Int) : List Char :=
  label ++ ('_' :: (toString windowStart).data)

/-- The `Candle` produced by `CandleBuilder.finalizeCandle`. -/
def candleOf (c : CandleInProgress) : Candle :=
  ⟨c.startTime, c.open_, c.high, c.low, c.close, c.volume⟩

/-- `CandleBuilder.finalizeCandle`: push the finalized candle into
the timeframe's buffer (listener invocation has no effect on the
builder state and is not modelled). -/
def finalizeCandle (tf : TimeframeConfig) (c : CandleInProgress)
    (buffers : List (List Char × BufState Candle)) : List (List Char × BufState Candle) :=
  mapUpdate buffers tf.label (fun b => bufPush b (candleOf c))

/-- The shared eviction loop
`for (const oldKey of keys) { get; finalize; delete }` of
`updateCandle` and `forceFinalizeAll` (generic in the in-progress
record type and in the finalization effect). -/
def evictFold {V β : Type} (fin : V → β → β) (ks : List (List Char))
    (m : List (List Char × V)) (b : β) : List (List Char × V) × β :=
  ks.foldl
    (fun st k =>
      match mapGet st.1 k with
      | some v => (mapDelete st.1 k, fin v st.2)
      | none => st)
    (m, b)

/-- `CandleBuilder.updateCandle` (candleBuilder.ts, lines 40–73). -/
def updateCandle (tf : TimeframeConfig) (tick : NormalizedTick) (timestamp : Int)
    (s : BuilderState) : BuilderState :=
  let ws := getWindowStart timestamp tf.seconds
  let key := mkKey tf.label ws
  match mapGet s.candlesInProgress key with
  | some _ =>
      { s with
        candlesInProgress :=
          mapUpdate s.candlesInProgress key fun c =>
            { c with
              high := max c.high tick.price
              low := min c.low tick.price
              close := tick.price
              volume := c.volume + jsOrZero tick.size
              lastUpdate := timestamp } }
  | none =>
      let existingKeys :=
        (s.candlesInProgress.map Prod.fst).filter fun k => strStartsWith k tf.label
      let st := evictFold (finalizeCandle tf) existingKeys s.candlesInProgress s.buffers
      let c : CandleInProgress :=
        ⟨tick.price, tick.price, tick.price, tick.price, jsOrZero tick.size, ws, timestamp⟩
      { candlesInProgress := mapSet st.1 key c, buffers := st.2 }

/-- `CandleBuilder.addTick` (symbol filter, then one `updateCandle`
per configured timeframe). -/
def addTick (symbol : String) (tfs : List TimeframeConfig) (tick : NormalizedTick)
    (s : BuilderState) : BuilderState :=
  if tick.symbol ≠ symbol then s
  else tfs.foldl (fun s tf => updateCandle tf tick tick.ts s) s

/-- `CandleBuilder.forceFinalizeAll` (candleBuilder.ts, lines 96–107). -/
def forceFinalizeAll (tfs : List TimeframeConfig) (s : BuilderState) : BuilderState :=
  tfs.foldl
    (fun s tf =>
      let keys := (s.candlesInProgress.map Prod.fst).filter fun k => strStartsWith k tf.label
      let st := evictFold (finalizeCandle tf) keys s.candlesInProgress s.buffers
      { candlesInProgress := st.1, buffers := st.2 })
    s

/-- The `CandleBuilder` constructor: one empty buffer per timeframe,
no in-progress candles. -/
def initState (tfs : List TimeframeConfig) : BuilderState :=
  { candlesInProgress := []
    buffers := tfs.map fun tf => (tf.label, ⟨tf.bufferSize, []⟩) }

/-- Externally triggerable builder operations: feeding a tick, or the
shutdown-time `forceFinalizeAll`. -/
inductive BuilderOp where
  | tick (t : NormalizedTick)
  | finalizeAll
  deriving DecidableEq, Repr

def applyOp (symbol : String) (tfs : List TimeframeConfig) :
    BuilderOp → BuilderState → BuilderState
  | .tick t, s => addTick symbol tfs t s
  | .finalizeAll, s => forceFinalizeAll tfs s

/-- A builder run: any sequence of ticks and finalizations from the
freshly constructed state. -/
def runOps (symbol : String) (tfs : List TimeframeConfig) (ops : List BuilderOp) : BuilderState :=
  ops.foldl (fun s op => applyOp symbol tfs op s) (initState tfs)

/-- A builder run consisting of ticks only. -/
def runTicks (symbol : String) (tfs : List TimeframeConfig)
    (ticks : List NormalizedTick) : BuilderState :=
  ticks.foldl (fun s t => addTick symbol tfs t s) (initState tfs)

/-! ### Univariate aggregator (src/core/univariateBuilder.ts) -/

/-- `DataPointInProgress` (univariateBuilder.ts, lines 4–10). -/
structure DataPointInProgress where
  value : ℚ
  startTime : Int
  lastUpdate : Int
  count : Nat
  sum : ℚ
  deriving DecidableEq, Repr

/-- Mutable state of a `UnivariateBuilder`. -/
structure UniBuilderState where
  dataPointsInProgress : List (List Char × DataPointInProgress)
  buffers : List (List Char × BufState UnivariateDataPoint)
  deriving DecidableEq, Repr

/-- The record produced by `UnivariateBuilder.finalizeDataPoint`. -/
def dataPointOf (d : DataPointInProgress) : UnivariateDataPoint :=
  ⟨d.startTime, d.value⟩

/-- `UnivariateBuilder.finalizeDataPoint`. -/
def finalizeDataPoint (tf : TimeframeConfig) (d : DataPointInProgress)
    (buffers : List (List Char × BufState UnivariateDataPoint)) :
    List (List Char × BufState UnivariateDataPoint) :=
  mapUpdate buffers tf.label (fun b => bufPush b (dataPointOf d))

/-- `UnivariateBuilder.updateDataPoint` (univariateBuilder.ts,
lines 38–68). -/
def updateDataPoint (tf : TimeframeConfig) (tick : NormalizedTick) (timestamp : Int)
    (s : UniBuilderState) : UniBuilderState :=
  let ws := getWindowStart timestamp tf.seconds
  let key := mkKey tf.label ws
  match mapGet s.dataPointsInProgress key with
  | some _ =>
      { s with
        dataPointsInProgress :=
          mapUpdate s.dataPointsInProgress key fun d =>
            { d with
              value := tick.price
              lastUpdate := timestamp
              count := d.count + 1
              sum := d.sum + tick.price } }
  | none =>
      let existingKeys :=
        (s.dataPointsInProgress.map Prod.fst).filter fun k => strStartsWith k tf.label
      let st := evictFold (finalizeDataPoint tf) existingKeys s.dataPointsInProgress s.buffers
      let d : DataPointInProgress := ⟨tick.price, ws, timestamp, 1, tick.price⟩
      { dataPointsInProgress := mapSet st.1 key d, buffers := st.2 }

/-- `UnivariateBuilder.addTick`. -/
def addTickU (symbol : String) (tfs : List TimeframeConfig) (tick : NormalizedTick)
    (s : UniBuilderState) : UniBuilderState :=
  if tick.symbol ≠ symbol then s
  else tfs.foldl (fun s tf => updateDataPoint tf tick tick.ts s) s

/-- `UnivariateBuilder.forceFinalizeAll` (univariateBuilder.ts,
lines 87–98). -/
def forceFinalizeAllU (tfs : List TimeframeConfig) (s : UniBuilderState) : UniBuilderState :=
  tfs.foldl
    (fun s tf =>
      let keys := (s.dataPointsInProgress.map Prod.fst).filter fun k => strStartsWith k tf.label
      let st := evictFold (finalizeDataPoint tf) keys s.dataPointsInProgress s.buffers
      { dataPointsInProgress := st.1, buffers := st.2 })
    s

/-- The `UnivariateBuilder` constructor. -/
def initStateU (tfs : List TimeframeConfig) : UniBuilderState :=
  { dataPointsInProgress := []
    buffers := tfs.map fun tf => (tf.label, ⟨tf.bufferSize, []⟩) }

/-! ### CIL dispatch adapter (src/core/cilAdapter.ts) -/

/-- `CILAdapter.getTimeframeSeconds`: parse a `^(\d+)(s|m|h)$` label;
any other label falls back to 60 seconds. -/
def getTimeframeSeconds (label : List Char) : Nat :=
  match label.reverse with
  | [] => 60
  | u :: rds =>
    let ds := rds.reverse
    if (!ds.isEmpty) && ds.all (fun c => c.isDigit) then
      let v := ds.foldl (fun a c => a * 10 + (c.toNat - '0'.toNat)) 0
      if u = 's' then v
      else if u = 'm' then v * 60
      else if u = 'h' then v * 3600
      else 60
    else 60

/-- `CILAdapter.getNextDatetime`: the last record's instant plus the
parsed timeframe seconds. -/
def getNextDatetime (lastDatetime : Int) (label : List Char) : Int :=
  lastDatetime + (getTimeframeSeconds label : Int) * 1000

/-- `CILAdapterConfig` (`apiUrl`/`apiKey` do not affect the payload). -/
structure CILAdapterConfig where
  rowCount : Nat
  deriving DecidableEq, Repr

/-- The constructor's `rowCount: config.rowCount || 5001`. -/
def effRowCount (cfg : CILAdapterConfig) : Nat :=
  if cfg.rowCount = 0 then 5001 else cfg.rowCount

/-- One CSV data row `${datetime},${open},${high},${low},${close}`. -/
def candleRow (c : Candle) : String :=
  String.intercalate ","
    [toString c.datetime, toString c.open_, toString c.high, toString c.low, toString c.close]

/-- `CILAdapter.buildCSVPayload`, as the `rows` array it joins with
newlines.  `none` models the `TypeError` thrown on an empty input
(`candles[candles.length - 1]` is `undefined`). -/
def buildCSVPayload (candles : List Candle) (label : List Char) : Option (List String) :=
  match candles.getLast? with
  | none => none
  | some lastCandle =>
      some (["datetime,open,high,low,close"] ++ candles.map candleRow ++
        [String.intercalate ","
          [toString (getNextDatetime lastCandle.datetime label), "0", "0", "0", "0"]])

/-- Outcome of `CILAdapter.sendToCIL` up to the HTTP call:
`insufficient` is the early `return null`, `crash` the thrown
`TypeError`, `payload` the CSV rows handed to `postToCIL`. -/
inductive SendOutcome where
  | insufficient
  | crash
  | payload (rows : List String)
  deriving DecidableEq, Repr

/-- `CILAdapter.sendToCIL` (cilAdapter.ts, lines 20–40), up to the
network call. -/
def sendToCIL (cfg : CILAdapterConfig) (buffer : List Candle) (label : List Char) :
    SendOutcome :=
  let rc := effRowCount cfg
  let candles := getLast buffer (rc - 1)
  if candles.length < rc - 1 then .insufficient
  else
    match buildCSVPayload candles label with
    | none => .crash
    | some rows => .payload rows

/-- One univariate CSV data row `${datetime},${value}`. -/
def dataPointRow (d : UnivariateDataPoint) : String :=
  String.intercalate "," [toString d.datetime, toString d.value]

/-- `UnivariateAdapter.buildCSVPayload` (same file, univariate
variant with header `datetime,value` and placeholder `…,0`). -/
def buildCSVPayloadU (dataPoints : List UnivariateDataPoint) (label : List Char) :
    Option (List String) :=
  match dataPoints.getLast? with
  | none => none
  | some lastDataPoint =>
      some (["datetime,value"] ++ dataPoints.map dataPointRow ++
        [String.intercalate "," [toString (getNextDatetime lastDataPoint.datetime label), "0"]])

/-- `UnivariateAdapter.sendToUnivariate`, up to the network call. -/
def sendToUnivariate (cfg : CILAdapterConfig) (buffer : List UnivariateDataPoint)
    (label : List Char) : SendOutcome :=
  let rc := effRowCount cfg
  let dataPoints := getLast buffer (rc - 1)
  if dataPoints.length < rc - 1 then .insufficient
  else
    match buildCSVPayloadU dataPoints label with
    | none => .crash
    | some rows => .payload rows

/-! ### Normalizers

Every normalizer is embedded with an explicit `now : Int` parameter
standing for the wall clock consulted by `new Date()`; a normalizer
that never consults the clock simply ignores it. -/

/-- `BloombergTickData` (bloomberg/normalizer.ts, lines 3–10).
`TIME` is the instant denoted by a truthy `TIME` string (`none` =
absent or null). -/
structure BloombergTickData where
  LAST_PRICE : Option ℚ
  BID : Option ℚ
  ASK : Option ℚ
  VOLUME : Option ℚ
  LAST_TRADE : Option ℚ
  TIME : Option Int
  deriving DecidableEq, Repr

/-- `BloombergNormalizer.normalize` (bloomberg/normalizer.ts, lines
13–32).  The price is the JS `||`-chain
`LAST_TRADE || LAST_PRICE || BID || ASK`. -/
def bloombergNormalize (data : BloombergTickData) (security : String) (now : Int) :
    Option NormalizedTick :=
  let price := jsOr (jsOr (jsOr data.LAST_TRADE data.LAST_PRICE) data.BID) data.ASK
  match price with
  | none => none
  | some p =>
      let timestamp :=
        match data.TIME with
        | some t => t
        | none => now
      some ⟨timestamp, p, data.VOLUME, security, "bloomberg"⟩

/-- `BinanceTradeData` (binance/normalizer.ts, lines 3–15).  The
numeric strings `p`, `q` are modelled by the value `parseFloat`
yields on them (`none` = absent or empty, both falsy). -/
structure BinanceTradeData where
  e : String
  E : Int
  s : String
  t : Int
  p : Option ℚ
  q : Option ℚ
  T : Int
  m : Bool
  M : Bool
  deriving DecidableEq, Repr

/-- `BinanceNormalizer.normalizeTrade` (binance/normalizer.ts, lines
32–45): guard `!data.s || !data.p || !data.T`, then build the tick
from the vendor trade time `T`.  It never consults the clock. -/
def binanceNormalizeTrade (data : BinanceTradeData) (_now : Int) : Option NormalizedTick :=
  match data.p with
  | none => none
  | some pv =>
      if data.s = "" ∨ data.T = 0 then none
      else some ⟨data.T, pv, data.q, data.s, "binance"⟩

/-- `AccuWeatherCurrentConditions` (the fields the normalizer reads;
`TemperatureMetricValue` is `Temperature.Metric.Value`, `none` when
any link of the optional chain is missing).
`LocalObservationDateTime` is the instant denoted by a truthy date
string. -/
structure AccuWeatherCurrentConditions where
  LocalObservationDateTime : Option Int
  EpochTime : Option Int
  TemperatureMetricValue : Option ℚ
  RelativeHumidity : Option ℚ
  deriving DecidableEq, Repr

/-- `AccuWeatherNormalizer.normalize`: guard
`!raw.Temperature?.Metric?.Value` (so a temperature of exactly 0 is
rejected as falsy), then prefer `LocalObservationDateTime`, else a
truthy `EpochTime` (seconds), else the wall clock. -/
def accuWeatherNormalize (raw : AccuWeatherCurrentConditions) (locationKey : String)
    (now : Int) : Option NormalizedTick :=
  match raw.TemperatureMetricValue with
  | none => none
  | some v =>
      if v = 0 then none
      else
        let ts :=
          match raw.LocalObservationDateTime with
          | some t => t
          | none =>
              match raw.EpochTime with
              | some e => if e = 0 then now else e * 1000
              | none => now
        some ⟨ts, v, raw.RelativeHumidity, locationKey, "accuweather"⟩

/-! ### Polling loop and AccuWeather fetch (accuweather connector) -/

/-- `PollingConfig` after the constructor's defaulting spread
`{ maxRetries: 3, retryDelayMs: 5000, ...config }`. -/
structure PollingConfig where
  intervalMs : Nat
  maxRetries : Nat
  retryDelayMs : Nat
  deriving DecidableEq, Repr

/-- The `PollingLoop` constructor's defaulting. -/
def resolvePollingConfig (intervalMs : Nat) (maxRetries retryDelayMs : Option Nat) :
    PollingConfig :=
  ⟨intervalMs, maxRetries.getD 3, retryDelayMs.getD 5000⟩

/-- An HTTP response as seen by `fetchCurrentConditions`:`retryAfter`
is the `Retry-After` header in seconds, `body` the parsed JSON
(`none` when it is not an array). -/
structure HttpResponse (α : Type) where
  status : Nat
  retryAfter : Option Nat
  rateLimitRemaining : Option Int
  rateLimitReset : Option String
  body : Option (List α)
  deriving DecidableEq, Repr

/-- Result of one `fetchCurrentConditions` call: the health-snapshot
header updates it performs, and its return value or thrown error. -/
structure FetchResult (α : Type) where
  rateLimitRemaining : Option Int
  rateLimitReset : Option String
  result : Except String α
  deriving Repr

/-- `AccuWeatherConnector.fetchCurrentConditions` (lines 75–105):
records the `RateLimit-*` headers, throws on status 429 (without
ever reading `Retry-After`), throws on non-2xx and on a non-array or
empty body, and otherwise returns the first array element. -/
def fetchCurrentConditions {α : Type} (r : HttpResponse α) : FetchResult α :=
  let rlRem := r.rateLimitRemaining
  let rlRes := r.rateLimitReset
  if r.status = 429 then ⟨rlRem, rlRes, .error "Rate limit exceeded"⟩
  else if ¬ (200 ≤ r.status ∧ r.status < 300) then ⟨rlRem, rlRes, .error "HTTP error"⟩
  else
    match r.body with
    | none => ⟨rlRem, rlRes, .error "Invalid response format"⟩
    | some [] => ⟨rlRem, rlRes, .error "Invalid response format"⟩
    | some (x :: _) => ⟨rlRem, rlRes, .ok x⟩

/-- The sleeps performed inside one `PollingLoop.pollWithRetry` tick
(pollingLoop source, lines 52–75), given the remaining attempt budget
and the success/failure outcome of each attempt: a failed attempt
that is not the last one sleeps `retryDelayMs`. -/
def pollRetrySleepsAux (retryDelayMs : Nat) : Nat → List Bool → List Nat
  | 0, _ => []
  | _ + 1, [] => []
  | remaining + 1, outcome :: rest =>
    if outcome then []
    else if remaining = 0 then []
    else retryDelayMs :: pollRetrySleepsAux retryDelayMs remaining rest

/-- The sleeps of one `pollWithRetry` call under `cfg`. -/
def pollWithRetrySleeps (cfg : PollingConfig) (outcomes : List Bool) : List Nat :=
  pollRetrySleepsAux cfg.retryDelayMs cfg.maxRetries outcomes

/-! ### Connector health snapshots -/

/-- The declared `ConnectorHealth.status` union
(`types/index.ts`, line 25). -/
inductive HealthStatus where
  | connected
  | disconnected
  | error
  deriving DecidableEq, Repr

/-- `ConnectorHealth` (instants as epoch ms). -/
structure ConnectorHealth where
  status : HealthStatus
  lastMessageTime : Option Int
  errorCount : Nat
  uptime : Int
  rateLimitInfo : Option (Int × String)
  deriving DecidableEq, Repr

/-- Health-relevant fields of the streaming connectors
(Binance / Polygon / Bloomberg all carry exactly these). -/
structure StreamConnectorState where
  startTime : Int
  errorCount : Nat
  lastMessageTime : Option Int
  isConnected : Bool
  deriving DecidableEq, Repr

/-- `BinanceConnector.health` (binanceConnector.ts, lines 96–105). -/
def binanceHealth (s : StreamConnectorState) (now : Int) : ConnectorHealth :=
  { status := if s.isConnected then .connected else .disconnected
    lastMessageTime := s.lastMessageTime
    errorCount := s.errorCount
    uptime := if s.startTime ≠ 0 then now - s.startTime else 0
    rateLimitInfo := none }

/-- `PolygonConnector.health` (lines 134–143; verbatim the same
computation). -/
def polygonHealth (s : StreamConnectorState) (now : Int) : ConnectorHealth :=
  { status := if s.isConnected then .connected else .disconnected
    lastMessageTime := s.lastMessageTime
    errorCount := s.errorCount
    uptime := if s.startTime ≠ 0 then now - s.startTime else 0
    rateLimitInfo := none }

/-- `BloombergConnector.health` (lines 143–152; verbatim the same
computation). -/
def bloombergHealth (s : StreamConnectorState) (now : Int) : ConnectorHealth :=
  { status := if s.isConnected then .connected else .disconnected
    lastMessageTime := s.lastMessageTime
    errorCount := s.errorCount
    uptime := if s.startTime ≠ 0 then now - s.startTime else 0
    rateLimitInfo := none }

/-- Health-relevant fields of `AccuWeatherConnector`. -/
structure AccuWeatherConnectorState where
  startTime : Int
  errorCount : Nat
  lastMessageTime : Option Int
  isConnected : Bool
  rateLimitRemaining : Int
  rateLimitReset : Option String
  deriving DecidableEq, Repr

/-- `AccuWeatherConnector.health` (lines 140–158): same status
computation, plus the rate-limit info when a header was seen. -/
def accuWeatherHealth (s : AccuWeatherConnectorState) (now : Int) : ConnectorHealth :=
  { status := if s.isConnected then .connected else .disconnected
    lastMessageTime := s.lastMessageTime
    errorCount := s.errorCount
    uptime := if s.startTime ≠ 0 then now - s.startTime else 0
    rateLimitInfo :=
      if 0 ≤ s.rateLimitRemaining then
        some (s.rateLimitRemaining, s.rateLimitReset.getD "unknown")
      else none }

/-! ### Spec-side comparison definitions -/

/-- Spec side, for comparison with the code: "price is the first
non-null among LAST_TRADE, LAST_PRICE, BID, ASK" — the first present
value of the list, zero or not. -/
def firstNonNull : List (Option ℚ) → Option ℚ
  | [] => none
  | some v :: _ => some v
  | none :: rest => firstNonNull rest

/-- What the code's `||`-chain actually selects: the first present
and nonzero (truthy) value of the list. -/
def firstTruthy : List (Option ℚ) → Option ℚ
  | [] => none
  | some v :: rest => if v = 0 then firstTruthy rest else some v
  | none :: rest => firstTruthy rest

/-- `Except.isOk` specialised to thrown-string errors. -/
def exceptIsOk {α : Type} : Except String α → Bool
  | .ok _ => true
  | .error _ => false

/-! ### Concrete fixtures used by counterexamples and witnesses -/

/-- A candle at epoch 0 with all prices 1. -/
def sampleCandle : Candle := ⟨0, 1, 1, 1, 1, 0⟩

/-- A second candle, one minute later. -/
def sampleCandle2 : Candle := ⟨60000, 2, 3, 1, 2, 5⟩

end Conn

namespace Conn

/-! ## C10 — health snapshots never report the `error` status -/

/-- C10: for every streaming connector state (Binance, Polygon,
Bloomberg have the verbatim same `health()`), every AccuWeather
connector state and every clock reading, the health snapshot's status
is `connected` or `disconnected`; the declared `error` member of the
status union is never produced, however large the error count. -/
theorem health_status_never_error (s : StreamConnectorState)
    (sa : AccuWeatherConnectorState) (now : Int) :
    ((binanceHealth s now).status = .connected ∨ (binanceHealth s now).status = .disconnected) ∧
    ((polygonHealth s now).status = .connected ∨ (polygonHealth s now).status = .disconnected) ∧
    ((bloombergHealth s now).status = .connected ∨ (bloombergHealth s now).status = .disconnected) ∧
    ((accuWeatherHealth sa now).status = .connected ∨
      (accuWeatherHealth sa now).status = .disconnected) ∧
    (binanceHealth s now).status ≠ .error ∧
    (polygonHealth s now).status ≠ .error ∧
    (bloombergHealth s now).status ≠ .error ∧
    (accuWeatherHealth sa now).status ≠ .error := by
  cases hc : s.isConnected <;> cases hca : sa.isConnected <;>
    simp [binanceHealth, polygonHealth, bloombergHealth, accuWeatherHealth, hc, hca]

/-! ## C5 — `getLast` -/

/-- C5 counterexample: `getLast(0)` is `slice(-0)` = `slice(0)`, the
whole backing array — on a buffer holding one record it returns that
record, not the `min(0, size) = 0` records the claim asks for. -/
theorem getLast_zero_counterexample :
    getLast [sampleCandle] 0 = [sampleCandle] ∧ getLast [sampleCandle] 0 ≠ [] := by
  constructor
  · rfl
  · simp [getLast]

/-- C5 amended: for every `n ≥ 1`, `getLast` returns the most recent
`min(n, size)` records — a suffix of the buffer, hence in
chronological order — and on the empty buffer it returns empty (the
`n = 0` case instead returns the entire buffer, see the
counterexample; mutation is ruled out by the purely functional
reading of `slice`). -/
theorem getLast_amended (α : Type) (candles : List α) (n : Nat) (hn : 1 ≤ n) :
    getLast candles n <:+ candles ∧
    (getLast candles n).length = min n candles.length ∧
    getLast ([] : List α) n = [] := by
  rw [getLast_pos candles n hn]
  refine ⟨List.drop_suffix _ _, ?_, ?_⟩
  · rw [List.length_drop]
    omega
  · simp [getLast]

/-- C5 amended, witness at a concrete buffer and `n = 1`. -/
theorem getLast_amended_witness :
    getLast [sampleCandle, sampleCandle2] 1 <:+ [sampleCandle, sampleCandle2] ∧
    (getLast [sampleCandle, sampleCandle2] 1).length =
      min 1 [sampleCandle, sampleCandle2].length ∧
    getLast ([] : List Candle) 1 = [] :=
  getLast_amended Candle [sampleCandle, sampleCandle2] 1 (by decide)

/-! ## C6 — Bloomberg price selection -/

/-- JS `a || b || c || d` returns the first truthy operand, else the
last operand. -/
theorem jsOr_firstTruthy (a b c d : Option ℚ) :
    jsOr (jsOr (jsOr a b) c) d =
      match firstTruthy [a, b, c, d] with
      | some v => some v
      | none => d := by
  cases a <;> cases b <;> cases c <;> cases d <;>
    simp only [jsOr, firstTruthy] <;> split_ifs <;> simp_all

/-- A message whose `LAST_TRADE` is 0 but whose `LAST_PRICE` is 7. -/
def bbZero : BloombergTickData :=
  { LAST_PRICE := some 7, BID := none, ASK := none, VOLUME := some 2,
    LAST_TRADE := some 0, TIME := some 0 }

/-- A message whose only price field is `LAST_TRADE = 0`. -/
def bbOnlyZeroTrade : BloombergTickData :=
  { LAST_PRICE := none, BID := none, ASK := none, VOLUME := none,
    LAST_TRADE := some 0, TIME := some 0 }

/-- C6 counterexample: with `LAST_TRADE = 0` and `LAST_PRICE = 7`,
the first non-null price field is 0, yet the code's `||`-chain skips
the falsy 0 and the tick's price is 7; and with `LAST_TRADE = 0` as
the only present field, normalize returns none although not all four
fields are null/absent. -/
theorem bloomberg_first_nonnull_counterexample :
    firstNonNull [bbZero.LAST_TRADE, bbZero.LAST_PRICE, bbZero.BID, bbZero.ASK] = some 0 ∧
    (bloombergNormalize bbZero "SEC" 99).map NormalizedTick.price = some 7 ∧
    (0 : ℚ) ≠ 7 ∧
    bloombergNormalize bbOnlyZeroTrade "SEC" 99 = none ∧
    bbOnlyZeroTrade.LAST_TRADE ≠ none := by decide

/-- C6 amended: the price is the first *truthy* (present and
nonzero) value among `LAST_TRADE, LAST_PRICE, BID, ASK`; when no
field is truthy the `||`-chain yields the raw `ASK`, so normalize
returns none exactly when no field is truthy and `ASK` is not 0 (an
all-falsy message with `ASK = 0` yields a tick with price 0); the
size is `VOLUME`. -/
theorem bloombergNormalize_amended (d : BloombergTickData) (sec : String) (now : Int) :
    (bloombergNormalize d sec now = none ↔
      (firstTruthy [d.LAST_TRADE, d.LAST_PRICE, d.BID, d.ASK] = none ∧ d.ASK ≠ some 0)) ∧
    ∀ t, bloombergNormalize d sec now = some t →
      t.price = (firstTruthy [d.LAST_TRADE, d.LAST_PRICE, d.BID, d.ASK]).getD 0 ∧
      t.size = d.VOLUME := by
  have hc := jsOr_firstTruthy d.LAST_TRADE d.LAST_PRICE d.BID d.ASK
  unfold bloombergNormalize
  rw [hc]
  rcases hf : firstTruthy [d.LAST_TRADE, d.LAST_PRICE, d.BID, d.ASK] with _ | v
  · rcases hA : d.ASK with _ | a
    · simp
    · have ha0 : a = 0 := by
        rcases hLT : d.LAST_TRADE with _ | x <;> rcases hLP : d.LAST_PRICE with _ | y <;>
          rcases hB : d.BID with _ | z <;>
          simp only [hLT, hLP, hB, hA, firstTruthy] at hf <;>
          split_ifs at hf <;> simp_all
      subst ha0
      simp
  · constructor
    · simp
    · intro t ht
      simp only [Option.some.injEq] at ht
      subst ht
      simp

/-- C6 amended, witness: the tick produced from `bbZero` carries
price `firstTruthy … = 7` and size `VOLUME`. -/
theorem bloombergNormalize_amended_witness :
    NormalizedTick.price ⟨0, 7, some 2, "SEC", "bloomberg"⟩ =
      (firstTruthy [bbZero.LAST_TRADE, bbZero.LAST_PRICE, bbZero.BID, bbZero.ASK]).getD 0 ∧
    NormalizedTick.size ⟨0, 7, some 2, "SEC", "bloomberg"⟩ = bbZero.VOLUME :=
  (bloombergNormalize_amended bbZero "SEC" 99).2 ⟨0, 7, some 2, "SEC", "bloomberg"⟩ (by decide)

/-! ## C9 — normalizer determinism -/

/-- A Bloomberg message with a price but no `TIME` field. -/
def bbNoTime : BloombergTickData :=
  { LAST_PRICE := some 5, BID := none, ASK := none, VOLUME := none,
    LAST_TRADE := none, TIME := none }

/-- C9 counterexample: the Bloomberg normalizer stamps a message
without `TIME` with the wall clock (`new Date()`), so normalizing
the same raw message at two different instants yields different
ticks. -/
theorem normalize_determinism_counterexample :
    bloombergNormalize bbNoTime "SEC" 0 ≠ bloombergNormalize bbNoTime "SEC" 1000 := by
  decide

/-- C9 amended: Binance trade normalization never consults the
clock; Bloomberg is deterministic on messages carrying a (truthy)
`TIME`; AccuWeather is deterministic on messages carrying a truthy
`LocalObservationDateTime` or a truthy `EpochTime`.  Messages
without any vendor timestamp are stamped with the receipt time and
repeated normalization can differ (see the counterexample). -/
theorem normalize_determinism_amended
    (bd : BinanceTradeData) (d : BloombergTickData) (sec : String)
    (raw : AccuWeatherCurrentConditions) (loc : String) (n1 n2 : Int)
    (ht : d.TIME ≠ none)
    (ha : raw.LocalObservationDateTime ≠ none ∨ ∃ e, raw.EpochTime = some e ∧ e ≠ 0) :
    binanceNormalizeTrade bd n1 = binanceNormalizeTrade bd n2 ∧
    bloombergNormalize d sec n1 = bloombergNormalize d sec n2 ∧
    accuWeatherNormalize raw loc n1 = accuWeatherNormalize raw loc n2 := by
  refine ⟨rfl, ?_, ?_⟩
  · rcases hT : d.TIME with _ | t
    · exact absurd hT ht
    · simp [bloombergNormalize, hT]
  · rcases ha with hL | ⟨e, hE, he⟩
    · rcases hLd : raw.LocalObservationDateTime with _ | t
      · exact absurd hLd hL
      · simp [accuWeatherNormalize, hLd]
    · rcases hLd : raw.LocalObservationDateTime with _ | t
      · simp [accuWeatherNormalize, hLd, hE, he]
      · simp [accuWeatherNormalize, hLd]

/-- A well-formed Binance trade message. -/
def bnTrade : BinanceTradeData :=
  { e := "trade", E := 1000, s := "BTCUSDT", t := 1, p := some 100, q := some 2,
    T := 1000, m := false, M := false }

/-- A Bloomberg message with `TIME` present. -/
def bbWithTime : BloombergTickData :=
  { LAST_PRICE := some 5, BID := none, ASK := none, VOLUME := none,
    LAST_TRADE := none, TIME := some 1000 }

/-- An AccuWeather record with an observation time. -/
def awObs : AccuWeatherCurrentConditions :=
  { LocalObservationDateTime := some 1000, EpochTime := none,
    TemperatureMetricValue := some 20, RelativeHumidity := some 50 }

/-- C9 amended, witness at concrete messages and two distinct clock
readings. -/
theorem normalize_determinism_amended_witness :
    binanceNormalizeTrade bnTrade 5 = binanceNormalizeTrade bnTrade 6 ∧
    bloombergNormalize bbWithTime "SEC" 5 = bloombergNormalize bbWithTime "SEC" 6 ∧
    accuWeatherNormalize awObs "LOC" 5 = accuWeatherNormalize awObs "LOC" 6 :=
  normalize_determinism_amended bnTrade bbWithTime "SEC" awObs "LOC" 5 6
    (by decide) (Or.inl (by decide))

/-! ## C7 — Retry-After is not honored; the retry delay is fixed -/

/-- A 429 response whose `Retry-After` header is 10 seconds. -/
def cexResp429 : HttpResponse Nat := ⟨429, some 10, none, none, some [1]⟩

/-- C7 counterexample: a 429 response with `Retry-After: 10` makes
the poll attempt throw, and the retry inside `pollWithRetry` is
scheduled after the default `retryDelayMs` of 5000 ms — not after
the 10 000 ms the header asks for. -/
theorem retryAfter_counterexample :
    (fetchCurrentConditions cexResp429).result = Except.error "Rate limit exceeded" ∧
    cexResp429.retryAfter = some 10 ∧
    pollWithRetrySleeps (resolvePollingConfig 300000 none none) [false, true] = [5000] ∧
    (5000 : Nat) ≠ 10 * 1000 := by
  exact ⟨rfl, rfl, rfl, by decide⟩

/-- C7 amended: `fetchCurrentConditions` never reads the
`Retry-After` header (its outcome is invariant under that header); a
429 makes the attempt fail, and the next attempt inside
`pollWithRetry` under the AccuWeather polling defaults is scheduled
after the fixed `retryDelayMs = 5000` ms, independent of the header
and distinct from the polling cadence. -/
theorem retry_fixed_delay_amended (i : Nat) (r : HttpResponse Nat) (rest : List Bool)
    (h429 : r.status = 429) :
    (∀ ra1 ra2 : Option Nat,
      fetchCurrentConditions { r with retryAfter := ra1 } =
        fetchCurrentConditions { r with retryAfter := ra2 }) ∧
    exceptIsOk (fetchCurrentConditions r).result = false ∧
    (pollWithRetrySleeps (resolvePollingConfig i none none) (false :: rest)).head? =
      some 5000 := by
  refine ⟨fun ra1 ra2 => rfl, ?_, rfl⟩
  simp [fetchCurrentConditions, h429, exceptIsOk]

/-- C7 amended, witness at the concrete 429 response. -/
theorem retry_fixed_delay_amended_witness :
    fetchCurrentConditions { cexResp429 with retryAfter := some 10 } =
      fetchCurrentConditions { cexResp429 with retryAfter := none } ∧
    exceptIsOk (fetchCurrentConditions cexResp429).result = false ∧
    (pollWithRetrySleeps (resolvePollingConfig 300000 none none) (false :: [true])).head? =
      some 5000 :=
  ⟨(retry_fixed_delay_amended 300000 cexResp429 [true] rfl).1 (some 10) none,
   (retry_fixed_delay_amended 300000 cexResp429 [true] rfl).2⟩

/-! ## C1 — dispatch payload shape -/

/-- C1 counterexample: with a configured row-count of 1 (a legal
config — only 0 is replaced by the 5001 default) and a buffer of one
record, `getLast(rowCount − 1)` is `slice(-0)` = the whole buffer, so
`sendToCIL` serializes one record instead of `rowCount − 1 = 0` and
its payload has 3 physical lines, not `rowCount + 1 = 2`. -/
theorem sendToCIL_rowcount_counterexample :
    effRowCount ⟨1⟩ = 1 ∧
    sendToCIL ⟨1⟩ [sampleCandle] ['1', 'm'] =
      .payload ["datetime,open,high,low,close", "0,1,1,1,1", "60000,0,0,0,0"] ∧
    ["datetime,open,high,low,close", "0,1,1,1,1", "60000,0,0,0,0"].length ≠
      effRowCount ⟨1⟩ + 1 := by
  refine ⟨rfl, ?_, by decide⟩
  rfl

/-- C1 amended: provided the effective row-count is at least 2 (the
typical 5001, and anything except a configured row-count of exactly
1), `sendToCIL` returns none when the buffer holds fewer than
`rowCount − 1` records, and otherwise serializes the most recent
`rowCount − 1` records (a suffix of the buffer, hence in
chronological order) under the header `datetime,open,high,low,close`
and appends one placeholder row whose datetime is the last record's
datetime plus the parsed timeframe seconds and whose four numeric
fields are the literal `0`s, for `rowCount + 1` rows in total; the
univariate adapter does the same with header `datetime,value` and a
single `0` field. -/
theorem sendToCIL_amended (cfg : CILAdapterConfig) (buffer : List Candle)
    (ubuffer : List UnivariateDataPoint) (label : List Char)
    (h2 : 2 ≤ effRowCount cfg) :
    (buffer.length < effRowCount cfg - 1 → sendToCIL cfg buffer label = .insufficient) ∧
    (effRowCount cfg - 1 ≤ buffer.length →
      ∃ tail lastC rows,
        tail <:+ buffer ∧ tail.length = effRowCount cfg - 1 ∧
        tail.getLast? = some lastC ∧
        rows = ["datetime,open,high,low,close"] ++ tail.map candleRow ++
          [String.intercalate ","
            [toString (lastC.datetime + (getTimeframeSeconds label : Int) * 1000),
             "0", "0", "0", "0"]] ∧
        sendToCIL cfg buffer label = .payload rows ∧
        rows.length = effRowCount cfg + 1) ∧
    (ubuffer.length < effRowCount cfg - 1 → sendToUnivariate cfg ubuffer label = .insufficient) ∧
    (effRowCount cfg - 1 ≤ ubuffer.length →
      ∃ tail lastD rows,
        tail <:+ ubuffer ∧ tail.length = effRowCount cfg - 1 ∧
        tail.getLast? = some lastD ∧
        rows = ["datetime,value"] ++ tail.map dataPointRow ++
          [String.intercalate ","
            [toString (lastD.datetime + (getTimeframeSeconds label : Int) * 1000), "0"]] ∧
        sendToUnivariate cfg ubuffer label = .payload rows ∧
        rows.length = effRowCount cfg + 1) := by
  have h1 : 1 ≤ effRowCount cfg - 1 := by omega
  refine ⟨?_, ?_, ?_, ?_⟩
  · intro hlt
    simp only [sendToCIL]
    rw [getLast_pos _ _ h1]
    have h0 : buffer.length - (effRowCount cfg - 1) = 0 := by omega
    rw [h0, List.drop_zero, if_pos hlt]
  · intro hge
    refine ⟨buffer.drop (buffer.length - (effRowCount cfg - 1)), ?_⟩
    have hlen : (buffer.drop (buffer.length - (effRowCount cfg - 1))).length =
        effRowCount cfg - 1 := by
      rw [List.length_drop]; omega
    have hne : buffer.drop (buffer.length - (effRowCount cfg - 1)) ≠ [] := by
      intro hnil
      rw [hnil] at hlen
      simp at hlen
      omega
    rcases hlast : (buffer.drop (buffer.length - (effRowCount cfg - 1))).getLast?
      with _ | lastC
    · exact absurd (List.getLast?_eq_none_iff.mp hlast) hne
    · refine ⟨lastC, _, List.drop_suffix _ _, hlen, rfl, rfl, ?_, ?_⟩
      · simp only [sendToCIL]
        rw [getLast_pos _ _ h1]
        rw [if_neg (by rw [hlen]; omega)]
        simp only [buildCSVPayload]
        rw [hlast]
        rfl
      · simp only [List.length_append, List.length_map, List.length_cons,
          List.length_nil, hlen]
        omega
  · intro hlt
    simp only [sendToUnivariate]
    rw [getLast_pos _ _ h1]
    have h0 : ubuffer.length - (effRowCount cfg - 1) = 0 := by omega
    rw [h0, List.drop_zero, if_pos hlt]
  · intro hge
    refine ⟨ubuffer.drop (ubuffer.length - (effRowCount cfg - 1)), ?_⟩
    have hlen : (ubuffer.drop (ubuffer.length - (effRowCount cfg - 1))).length =
        effRowCount cfg - 1 := by
      rw [List.length_drop]; omega
    have hne : ubuffer.drop (ubuffer.length - (effRowCount cfg - 1)) ≠ [] := by
      intro hnil
      rw [hnil] at hlen
      simp at hlen
      omega
    rcases hlast : (ubuffer.drop (ubuffer.length - (effRowCount cfg - 1))).getLast?
      with _ | lastD
    · exact absurd (List.getLast?_eq_none_iff.mp hlast) hne
    · refine ⟨lastD, _, List.drop_suffix _ _, hlen, rfl, rfl, ?_, ?_⟩
      · simp only [sendToUnivariate]
        rw [getLast_pos _ _ h1]
        rw [if_neg (by rw [hlen]; omega)]
        simp only [buildCSVPayloadU]
        rw [hlast]
        rfl
      · simp only [List.length_append, List.length_map, List.length_cons,
          List.length_nil, hlen]
        omega

/-- Four minute candles ending at epoch 180 000 ms. -/
def cbuf4 : List Candle :=
  [⟨0, 1, 1, 1, 1, 0⟩, ⟨60000, 1, 1, 1, 1, 0⟩, ⟨120000, 1, 1, 1, 1, 0⟩,
   ⟨180000, 1, 1, 1, 1, 0⟩]

/-- Four univariate samples ending at epoch 180 000 ms. -/
def ubuf4 : List UnivariateDataPoint :=
  [⟨0, 1⟩, ⟨60000, 1⟩, ⟨120000, 1⟩, ⟨180000, 1⟩]

/-- C1 amended, witness with row-count 5: a 4-record buffer is
serialized, a 2-record buffer is refused. -/
theorem sendToCIL_amended_witness :
    sendToCIL ⟨5⟩ cbuf4 ['1', 'm'] ≠ .insufficient ∧
    sendToCIL ⟨5⟩ (cbuf4.take 2) ['1', 'm'] = .insufficient ∧
    sendToUnivariate ⟨5⟩ ubuf4 ['1', 'm'] ≠ .insufficient := by
  have h := sendToCIL_amended ⟨5⟩ cbuf4 ubuf4 ['1', 'm'] (by decide)
  refine ⟨?_, ?_, ?_⟩
  · obtain ⟨tail, lastC, rows, -, -, -, -, hpay, -⟩ := h.2.1 (by decide)
    rw [hpay]
    simp
  · exact (sendToCIL_amended ⟨5⟩ (cbuf4.take 2) ubuf4 ['1', 'm'] (by decide)).1 (by decide)
  · obtain ⟨tail, lastD, rows, -, -, -, -, hpay, -⟩ := h.2.2.2 (by decide)
    rw [hpay]
    simp

end Conn

namespace Conn

/-! ## Association-map and eviction-loop lemmas -/

theorem mapGet_eq_none_iff {V : Type} (m : List (List Char × V)) (k : List Char) :
    mapGet m k = none ↔ ∀ e ∈ m, e.1 ≠ k := by
  induction m with
  | nil => simp [mapGet]
  | cons e m ih =>
    by_cases h : e.1 = k
    · constructor
      · intro hn
        rw [mapGet, if_pos h] at hn
        exact absurd hn (by simp)
      · intro hall
        exact absurd h (hall e (List.mem_cons.mpr (Or.inl rfl)))
    · constructor
      · intro hn
        rw [mapGet, if_neg h] at hn
        intro e' he'
        rcases List.mem_cons.mp he' with rfl | he'
        · exact h
        · exact (ih.mp hn) e' he'
      · intro hall
        rw [mapGet, if_neg h]
        exact ih.mpr fun e' he' => hall e' (List.mem_cons_of_mem _ he')

theorem mapGet_mem {V : Type} (m : List (List Char × V)) (k : List Char) (v : V)
    (h : mapGet m k = some v) : (k, v) ∈ m := by
  induction m with
  | nil => simp [mapGet] at h
  | cons e m ih =>
    obtain ⟨k', v'⟩ := e
    simp only [mapGet] at h
    by_cases he : k' = k
    · rw [if_pos he] at h
      simp only [Option.some.injEq] at h
      subst he
      subst h
      exact List.mem_cons.mpr (Or.inl rfl)
    · rw [if_neg he] at h
      exact List.mem_cons_of_mem _ (ih h)

theorem mapGet_delete_ne {V : Type} (m : List (List Char × V)) (k k' : List Char)
    (h : k' ≠ k) : mapGet (mapDelete m k) k' = mapGet m k' := by
  induction m with
  | nil => rfl
  | cons e m ih =>
    simp only [mapDelete, mapGet]
    by_cases he : e.1 = k
    · rw [if_pos he, ih, if_neg (by rw [he]; exact fun hk => h hk.symm)]
    · rw [if_neg he]
      simp only [mapGet]
      by_cases he' : e.1 = k'
      · rw [if_pos he', if_pos he']
      · rw [if_neg he', if_neg he', ih]

theorem mapDelete_eq_filter {V : Type} (m : List (List Char × V)) (k : List Char) :
    mapDelete m k = m.filter (fun e => !(e.1 == k)) := by
  induction m with
  | nil => rfl
  | cons e m ih =>
    simp only [mapDelete, List.filter_cons]
    by_cases he : e.1 = k
    · simp [he, ih]
    · simp [he, ih]

theorem mapDelete_sub {V : Type} (m : List (List Char × V)) (k : List Char) :
    ∀ e ∈ mapDelete m k, e ∈ m := by
  intro e he
  rw [mapDelete_eq_filter] at he
  exact List.mem_of_mem_filter he

theorem mapUpdate_map_fst {V : Type} (m : List (List Char × V)) (k : List Char)
    (f : V → V) : (mapUpdate m k f).map Prod.fst = m.map Prod.fst := by
  induction m with
  | nil => rfl
  | cons e m ih =>
    simp only [mapUpdate]
    by_cases he : e.1 = k
    · simp [he]
    · simp [he, ih]

theorem mapUpdate_mem {V : Type} (m : List (List Char × V)) (k : List Char) (f : V → V) :
    ∀ e ∈ mapUpdate m k f, e ∈ m ∨ ∃ e' ∈ m, e = (e'.1, f e'.2) := by
  induction m with
  | nil =>
    intro e he
    exact absurd he (List.not_mem_nil e)
  | cons e0 m ih =>
    intro e he
    simp only [mapUpdate] at he
    by_cases h0 : e0.1 = k
    · rw [if_pos h0] at he
      rcases List.mem_cons.mp he with h | h
      · exact Or.inr ⟨e0, List.mem_cons.mpr (Or.inl rfl), h⟩
      · exact Or.inl (List.mem_cons_of_mem _ h)
    · rw [if_neg h0] at he
      rcases List.mem_cons.mp he with h | h
      · exact Or.inl (List.mem_cons.mpr (Or.inl h))
      · rcases ih e h with h' | ⟨e', he', hee⟩
        · exact Or.inl (List.mem_cons_of_mem _ h')
        · exact Or.inr ⟨e', List.mem_cons_of_mem _ he', hee⟩

theorem mapGet_mapUpdate_eq {V : Type} (m : List (List Char × V)) (k : List Char)
    (f : V → V) : mapGet (mapUpdate m k f) k = (mapGet m k).map f := by
  induction m with
  | nil => rfl
  | cons e m ih =>
    by_cases he : e.1 = k
    · have h1 : mapUpdate (e :: m) k f = (e.1, f e.2) :: m := by
        simp only [mapUpdate, if_pos he]
      rw [h1, mapGet, mapGet, if_pos he, if_pos he]
      rfl
    · have h1 : mapUpdate (e :: m) k f = e :: mapUpdate m k f := by
        simp only [mapUpdate, if_neg he]
      rw [h1, mapGet, mapGet, if_neg he, if_neg he, ih]

theorem mapGet_mapUpdate_ne {V : Type} (m : List (List Char × V)) (k k' : List Char)
    (f : V → V) (h : k' ≠ k) : mapGet (mapUpdate m k f) k' = mapGet m k' := by
  induction m with
  | nil => rfl
  | cons e m ih =>
    by_cases he : e.1 = k
    · have h1 : mapUpdate (e :: m) k f = (e.1, f e.2) :: m := by
        simp only [mapUpdate, if_pos he]
      have hne : e.1 ≠ k' := by
        rw [he]
        exact fun hk => h hk.symm
      rw [h1, mapGet, mapGet, if_neg hne, if_neg hne]
    · have h1 : mapUpdate (e :: m) k f = e :: mapUpdate m k f := by
        simp only [mapUpdate, if_neg he]
      rw [h1, mapGet, mapGet]
      by_cases he' : e.1 = k'
      · rw [if_pos he', if_pos he']
      · rw [if_neg he', if_neg he', ih]

theorem mapSet_of_get_none {V : Type} (m : List (List Char × V)) (k : List Char) (v : V)
    (h : mapGet m k = none) : mapSet m k v = m ++ [(k, v)] := by
  induction m with
  | nil => rfl
  | cons e m ih =>
    simp only [mapGet] at h
    by_cases he : e.1 = k
    · rw [if_pos he] at h
      exact absurd h (by simp)
    · rw [if_neg he] at h
      simp only [mapSet]
      rw [if_neg he, ih h]
      rfl

theorem strStartsWith_append_self (l r : List Char) :
    strStartsWith (l ++ r) l = true := by
  induction l with
  | nil => cases r <;> rfl
  | cons a l ih => simp [strStartsWith, ih]

theorem evictFold_fst {V β : Type} (fin : V → β → β) (ks : List (List Char)) :
    ∀ (m : List (List Char × V)) (b : β),
      (evictFold fin ks m b).1 = m.filter (fun e => !(ks.contains e.1)) := by
  induction ks with
  | nil =>
    intro m b
    show m = m.filter fun e => !(([] : List (List Char)).contains e.1)
    simp [List.contains]
  | cons k ks ih =>
    intro m b
    rcases hg : mapGet m k with _ | v
    · have h1 : evictFold fin (k :: ks) m b = evictFold fin ks m b := by
        simp [evictFold, List.foldl_cons, hg]
      rw [h1, ih]
      apply List.filter_congr
      intro e he
      have hek : e.1 ≠ k := (mapGet_eq_none_iff m k).mp hg e he
      have hbeq : (e.1 == k) = false := beq_eq_false_iff_ne.mpr hek
      rw [List.contains_cons, hbeq, Bool.false_or]
    · have h1 : evictFold fin (k :: ks) m b =
          evictFold fin ks (mapDelete m k) (fin v b) := by
        simp [evictFold, List.foldl_cons, hg]
      rw [h1, ih, mapDelete_eq_filter, List.filter_filter]
      apply List.filter_congr
      intro e he
      rw [List.contains_cons, Bool.not_or, Bool.and_comm]

theorem evictFold_snd {V β : Type} (fin : V → β → β) (ks : List (List Char)) :
    ∀ (m : List (List Char × V)) (b : β), ks.Nodup →
      (evictFold fin ks m b).2 =
        (ks.filterMap (fun k => mapGet m k)).foldl (fun acc v => fin v acc) b := by
  induction ks with
  | nil => exact fun m b _ => rfl
  | cons k ks ih =>
    intro m b hnd
    obtain ⟨hk, hnd'⟩ := List.nodup_cons.mp hnd
    rcases hg : mapGet m k with _ | v
    · have h1 : evictFold fin (k :: ks) m b = evictFold fin ks m b := by
        simp [evictFold, List.foldl_cons, hg]
      rw [h1, ih m b hnd', List.filterMap_cons, hg]
    · have h1 : evictFold fin (k :: ks) m b =
          evictFold fin ks (mapDelete m k) (fin v b) := by
        simp [evictFold, List.foldl_cons, hg]
      rw [h1, ih _ _ hnd', List.filterMap_cons, hg]
      have hcongr : ks.filterMap (fun k' => mapGet (mapDelete m k) k') =
          ks.filterMap (fun k' => mapGet m k') := by
        apply List.filterMap_congr
        intro k' hk'
        exact mapGet_delete_ne m k k' fun hkk => hk (hkk ▸ hk')
      rw [hcongr, List.foldl_cons]

theorem keys_filter_filterMap {V : Type} (m : List (List Char × V))
    (p : List Char → Bool) (hnd : (m.map Prod.fst).Nodup) :
    ((m.map Prod.fst).filter p).filterMap (fun k => mapGet m k) =
      (m.filter (fun e => p e.1)).map Prod.snd := by
  induction m with
  | nil => rfl
  | cons e m ih =>
    rw [List.map_cons, List.nodup_cons] at hnd
    obtain ⟨hk, hnd'⟩ := hnd
    have hm : ((m.map Prod.fst).filter p).filterMap (fun k' => mapGet (e :: m) k') =
        ((m.map Prod.fst).filter p).filterMap (fun k' => mapGet m k') := by
      apply List.filterMap_congr
      intro k' hk'
      have hk'm : k' ∈ m.map Prod.fst := List.mem_of_mem_filter hk'
      have hne : e.1 ≠ k' := fun h => hk (h ▸ hk'm)
      rw [mapGet, if_neg hne]
    have hge : mapGet (e :: m) e.1 = some e.2 := by rw [mapGet, if_pos rfl]
    by_cases hp : p e.1
    · rw [List.map_cons, List.filter_cons, if_pos hp, List.filterMap_cons, hge, hm,
        ih hnd', List.filter_cons, if_pos hp, List.map_cons]
    · rw [List.map_cons, List.filter_cons, if_neg hp, hm, ih hnd',
        List.filter_cons, if_neg hp]

theorem evictFold_keys_fst {V β : Type} (fin : V → β → β) (m : List (List Char × V))
    (b : β) (p : List Char → Bool) :
    (evictFold fin ((m.map Prod.fst).filter p) m b).1 =
      m.filter (fun e => !(p e.1)) := by
  rw [evictFold_fst]
  apply List.filter_congr
  intro e he
  have he1 : e.1 ∈ m.map Prod.fst := List.mem_map_of_mem Prod.fst he
  by_cases hp : p e.1
  · have hmem : e.1 ∈ (m.map Prod.fst).filter p := List.mem_filter.mpr ⟨he1, hp⟩
    have : ((m.map Prod.fst).filter p).contains e.1 = true := by
      show List.elem e.1 ((m.map Prod.fst).filter p) = true
      exact List.elem_iff.mpr hmem
    rw [this, hp]
  · have hmem : e.1 ∉ (m.map Prod.fst).filter p := by
      intro hmem
      exact hp (List.mem_filter.mp hmem).2
    have : ((m.map Prod.fst).filter p).contains e.1 = false := by
      show List.elem e.1 ((m.map Prod.fst).filter p) = false
      rcases h : List.elem e.1 ((m.map Prod.fst).filter p) with _ | _
      · rfl
      · exact absurd (List.elem_iff.mp h) hmem
    rw [this, Bool.not_false]
    have hpf : p e.1 = false := by
      rcases hpp : p e.1 with _ | _
      · rfl
      · exact absurd hpp hp
    rw [hpf]
    rfl

theorem evictFold_keys_snd {V β : Type} (fin : V → β → β) (m : List (List Char × V))
    (b : β) (p : List Char → Bool) (hnd : (m.map Prod.fst).Nodup) :
    (evictFold fin ((m.map Prod.fst).filter p) m b).2 =
      ((m.filter (fun e => p e.1)).map Prod.snd).foldl (fun acc v => fin v acc) b := by
  rw [evictFold_snd _ _ _ _ (List.Nodup.filter p hnd), keys_filter_filterMap m p hnd]

/-! ## C8 — `forceFinalizeAll` is idempotent -/

theorem forceFinalizeAll_empty (tfs : List TimeframeConfig) :
    ∀ s : BuilderState,
      (∀ e ∈ s.candlesInProgress, ∃ tf ∈ tfs, strStartsWith e.1 tf.label = true) →
      (forceFinalizeAll tfs s).candlesInProgress = [] := by
  induction tfs with
  | nil =>
    intro s h
    rcases hs : s.candlesInProgress with _ | ⟨e, rest⟩
    · exact hs
    · obtain ⟨tf, htf, -⟩ := h e (by rw [hs]; exact List.mem_cons.mpr (Or.inl rfl))
      exact absurd htf (List.not_mem_nil tf)
  | cons tf tfs ih =>
    intro s h
    have hstep : forceFinalizeAll (tf :: tfs) s =
        forceFinalizeAll tfs
          { candlesInProgress :=
              s.candlesInProgress.filter fun e => !(strStartsWith e.1 tf.label)
            buffers := (evictFold (finalizeCandle tf)
              ((s.candlesInProgress.map Prod.fst).filter fun k => strStartsWith k tf.label)
              s.candlesInProgress s.buffers).2 } := by
      rw [forceFinalizeAll, forceFinalizeAll, List.foldl_cons]
      congr 1
      simp only [evictFold_keys_fst]
    rw [hstep]
    apply ih
    intro e he
    rw [List.mem_filter] at he
    obtain ⟨hem, hnot⟩ := he
    obtain ⟨tf', htf', hsw⟩ := h e hem
    rcases List.mem_cons.mp htf' with rfl | htf'
    · rw [hsw] at hnot
      exact absurd hnot (by simp)
    · exact ⟨tf', htf', hsw⟩

theorem forceFinalizeAll_of_empty (tfs : List TimeframeConfig) :
    ∀ s : BuilderState, s.candlesInProgress = [] → forceFinalizeAll tfs s = s := by
  induction tfs with
  | nil => exact fun s _ => rfl
  | cons tf tfs ih =>
    intro s hs
    obtain ⟨cip, bufs⟩ := s
    simp only at hs
    subst hs
    have hstep : forceFinalizeAll (tf :: tfs) ⟨[], bufs⟩ =
        forceFinalizeAll tfs ⟨[], bufs⟩ := rfl
    rw [hstep]
    exact ih ⟨[], bufs⟩ rfl

theorem forceFinalizeAllU_empty (tfs : List TimeframeConfig) :
    ∀ s : UniBuilderState,
      (∀ e ∈ s.dataPointsInProgress, ∃ tf ∈ tfs, strStartsWith e.1 tf.label = true) →
      (forceFinalizeAllU tfs s).dataPointsInProgress = [] := by
  induction tfs with
  | nil =>
    intro s h
    rcases hs : s.dataPointsInProgress with _ | ⟨e, rest⟩
    · exact hs
    · obtain ⟨tf, htf, -⟩ := h e (by rw [hs]; exact List.mem_cons.mpr (Or.inl rfl))
      exact absurd htf (List.not_mem_nil tf)
  | cons tf tfs ih =>
    intro s h
    have hstep : forceFinalizeAllU (tf :: tfs) s =
        forceFinalizeAllU tfs
          { dataPointsInProgress :=
              s.dataPointsInProgress.filter fun e => !(strStartsWith e.1 tf.label)
            buffers := (evictFold (finalizeDataPoint tf)
              ((s.dataPointsInProgress.map Prod.fst).filter fun k =>
                strStartsWith k tf.label)
              s.dataPointsInProgress s.buffers).2 } := by
      rw [forceFinalizeAllU, forceFinalizeAllU, List.foldl_cons]
      congr 1
      simp only [evictFold_keys_fst]
    rw [hstep]
    apply ih
    intro e he
    rw [List.mem_filter] at he
    obtain ⟨hem, hnot⟩ := he
    obtain ⟨tf', htf', hsw⟩ := h e hem
    rcases List.mem_cons.mp htf' with rfl | htf'
    · rw [hsw] at hnot
      exact absurd hnot (by simp)
    · exact ⟨tf', htf', hsw⟩

theorem forceFinalizeAllU_of_empty (tfs : List TimeframeConfig) :
    ∀ s : UniBuilderState, s.dataPointsInProgress = [] → forceFinalizeAllU tfs s = s := by
  induction tfs with
  | nil => exact fun s _ => rfl
  | cons tf tfs ih =>
    intro s hs
    obtain ⟨cip, bufs⟩ := s
    simp only at hs
    subst hs
    have hstep : forceFinalizeAllU (tf :: tfs) ⟨[], bufs⟩ =
        forceFinalizeAllU tfs ⟨[], bufs⟩ := rfl
    rw [hstep]
    exact ih ⟨[], bufs⟩ rfl

/-- C8: calling `force-finalize-all` twice leaves the builder state —
in particular every buffer — exactly as after the first call, for the
OHLC and the univariate aggregator alike.  The hypotheses say that
every in-progress key was written by the builder itself (it starts
with some configured timeframe's label, as every key
`${label}_${windowStart}` does), which holds in every reachable
state; the first call then drains the whole in-progress map, so the
second call finalizes nothing and pushes nothing. -/
theorem forceFinalizeAll_idempotent (tfs : List TimeframeConfig) (s : BuilderState)
    (su : UniBuilderState)
    (h : ∀ e ∈ s.candlesInProgress, ∃ tf ∈ tfs, strStartsWith e.1 tf.label = true)
    (hu : ∀ e ∈ su.dataPointsInProgress, ∃ tf ∈ tfs, strStartsWith e.1 tf.label = true) :
    forceFinalizeAll tfs (forceFinalizeAll tfs s) = forceFinalizeAll tfs s ∧
    forceFinalizeAllU tfs (forceFinalizeAllU tfs su) = forceFinalizeAllU tfs su :=
  ⟨forceFinalizeAll_of_empty tfs _ (forceFinalizeAll_empty tfs s h),
   forceFinalizeAllU_of_empty tfs _ (forceFinalizeAllU_empty tfs su hu)⟩

/-- The 1-minute timeframe. -/
def tf1m : TimeframeConfig := ⟨60, ['1', 'm'], 10⟩

/-- An in-progress candle fixture. -/
def cip0 : CandleInProgress := ⟨1, 1, 1, 1, 0, 0, 0⟩

/-- An in-progress data-point fixture. -/
def dp0 : DataPointInProgress := ⟨1, 0, 0, 1, 1⟩

/-- A builder state holding one in-progress 1m candle. -/
def sWit : BuilderState :=
  ⟨[(mkKey ['1', 'm'] 0, cip0)], [(['1', 'm'], ⟨10, []⟩)]⟩

/-- A univariate builder state holding one in-progress 1m sample. -/
def suWit : UniBuilderState :=
  ⟨[(mkKey ['1', 'm'] 0, dp0)], [(['1', 'm'], ⟨10, []⟩)]⟩

/-- C8 witness at a concrete one-candle state. -/
theorem forceFinalizeAll_idempotent_witness :
    forceFinalizeAll [tf1m] (forceFinalizeAll [tf1m] sWit) = forceFinalizeAll [tf1m] sWit ∧
    forceFinalizeAllU [tf1m] (forceFinalizeAllU [tf1m] suWit) =
      forceFinalizeAllU [tf1m] suWit :=
  forceFinalizeAll_idempotent [tf1m] sWit suWit (by decide) (by decide)

/-! ## C2 — OHLC ordering invariant -/

/-- The in-progress form of the OHLC invariant. -/
def GoodCIP (c : CandleInProgress) : Prop :=
  c.low ≤ c.open_ ∧ c.open_ ≤ c.high ∧ c.low ≤ c.close ∧ c.close ≤ c.high

/-- The finalized form: `low ≤ min(open, close) ≤ max(open, close) ≤ high`. -/
def GoodCandle (c : Candle) : Prop :=
  c.low ≤ min c.open_ c.close ∧ min c.open_ c.close ≤ max c.open_ c.close ∧
    max c.open_ c.close ≤ c.high

/-- The builder-state invariant behind C2. -/
def InvC2 (s : BuilderState) : Prop :=
  (∀ e ∈ s.candlesInProgress, GoodCIP e.2) ∧
  (∀ lb ∈ s.buffers, ∀ c ∈ lb.2.candles, GoodCandle c)

theorem goodCandle_of_cip (c : CandleInProgress) (h : GoodCIP c) :
    GoodCandle (candleOf c) := by
  obtain ⟨h1, h2, h3, h4⟩ := h
  exact ⟨le_min h1 h3, min_le_max, max_le h2 h4⟩

theorem bufPush_good {α : Type} (P : α → Prop) (b : BufState α) (c : α)
    (hb : ∀ x ∈ b.candles, P x) (hc : P c) : ∀ x ∈ (bufPush b c).candles, P x := by
  intro x hx
  simp only [bufPush] at hx
  have hx' : x ∈ b.candles ++ [c] := by
    split at hx
    · exact List.mem_of_mem_tail hx
    · exact hx
  rcases List.mem_append.mp hx' with h | h
  · exact hb x h
  · rw [List.mem_singleton.mp h]
    exact hc

theorem finalize_buffers_good (tf : TimeframeConfig) (c : CandleInProgress)
    (bufs : List (List Char × BufState Candle))
    (hb : ∀ lb ∈ bufs, ∀ x ∈ lb.2.candles, GoodCandle x) (hc : GoodCIP c) :
    ∀ lb ∈ finalizeCandle tf c bufs, ∀ x ∈ lb.2.candles, GoodCandle x := by
  intro lb hlb
  rcases mapUpdate_mem bufs tf.label _ lb hlb with h | ⟨e', he', heq⟩
  · exact hb lb h
  · subst heq
    exact bufPush_good GoodCandle e'.2 (candleOf c) (hb e' he') (goodCandle_of_cip c hc)

theorem evictFold_inv (tf : TimeframeConfig) (ks : List (List Char)) :
    ∀ (m : List (List Char × CandleInProgress)) (bufs : List (List Char × BufState Candle)),
      (∀ e ∈ m, GoodCIP e.2) → (∀ lb ∈ bufs, ∀ x ∈ lb.2.candles, GoodCandle x) →
      (∀ e ∈ (evictFold (finalizeCandle tf) ks m bufs).1, GoodCIP e.2) ∧
      (∀ lb ∈ (evictFold (finalizeCandle tf) ks m bufs).2, ∀ x ∈ lb.2.candles,
        GoodCandle x) := by
  induction ks with
  | nil => exact fun m bufs hm hb => ⟨hm, hb⟩
  | cons k ks ih =>
    intro m bufs hm hb
    rcases hg : mapGet m k with _ | v
    · have h1 : evictFold (finalizeCandle tf) (k :: ks) m bufs =
          evictFold (finalizeCandle tf) ks m bufs := by
        simp [evictFold, List.foldl_cons, hg]
      rw [h1]
      exact ih m bufs hm hb
    · have h1 : evictFold (finalizeCandle tf) (k :: ks) m bufs =
          evictFold (finalizeCandle tf) ks (mapDelete m k) (finalizeCandle tf v bufs) := by
        simp [evictFold, List.foldl_cons, hg]
      rw [h1]
      exact ih (mapDelete m k) (finalizeCandle tf v bufs)
        (fun e he => hm e (mapDelete_sub m k e he))
        (finalize_buffers_good tf v bufs hb (hm (k, v) (mapGet_mem m k v hg)))

theorem updateCandle_present (tf : TimeframeConfig) (tick : NormalizedTick) (ts : Int)
    (s : BuilderState) (c : CandleInProgress)
    (hg : mapGet s.candlesInProgress (mkKey tf.label (getWindowStart ts tf.seconds)) =
      some c) :
    updateCandle tf tick ts s =
      { s with
        candlesInProgress :=
          mapUpdate s.candlesInProgress (mkKey tf.label (getWindowStart ts tf.seconds))
            fun c =>
              { c with
                high := max c.high tick.price
                low := min c.low tick.price
                close := tick.price
                volume := c.volume + jsOrZero tick.size
                lastUpdate := ts } } := by
  simp [updateCandle, hg]

theorem updateCandle_absent (tf : TimeframeConfig) (tick : NormalizedTick) (ts : Int)
    (s : BuilderState)
    (hg : mapGet s.candlesInProgress (mkKey tf.label (getWindowStart ts tf.seconds)) =
      none) :
    updateCandle tf tick ts s =
      { candlesInProgress :=
          mapSet
            (evictFold (finalizeCandle tf)
              ((s.candlesInProgress.map Prod.fst).filter fun k => strStartsWith k tf.label)
              s.candlesInProgress s.buffers).1
            (mkKey tf.label (getWindowStart ts tf.seconds))
            ⟨tick.price, tick.price, tick.price, tick.price, jsOrZero tick.size,
             getWindowStart ts tf.seconds, ts⟩
        buffers :=
          (evictFold (finalizeCandle tf)
            ((s.candlesInProgress.map Prod.fst).filter fun k => strStartsWith k tf.label)
            s.candlesInProgress s.buffers).2 } := by
  simp [updateCandle, hg]

theorem mapSet_mem {V : Type} (m : List (List Char × V)) (k : List Char) (v : V) :
    ∀ e ∈ mapSet m k v, e ∈ m ∨ e = (k, v) := by
  induction m with
  | nil =>
    intro e he
    rcases List.mem_singleton.mp he with rfl
    exact Or.inr rfl
  | cons e0 m ih =>
    intro e he
    simp only [mapSet] at he
    by_cases h0 : e0.1 = k
    · rw [if_pos h0] at he
      rcases List.mem_cons.mp he with rfl | h
      · exact Or.inr rfl
      · exact Or.inl (List.mem_cons_of_mem _ h)
    · rw [if_neg h0] at he
      rcases List.mem_cons.mp he with rfl | h
      · exact Or.inl (List.mem_cons.mpr (Or.inl rfl))
      · rcases ih e h with h' | rfl
        · exact Or.inl (List.mem_cons_of_mem _ h')
        · exact Or.inr rfl

theorem updateCandle_inv (tf : TimeframeConfig) (tick : NormalizedTick) (ts : Int)
    (s : BuilderState) (h : InvC2 s) : InvC2 (updateCandle tf tick ts s) := by
  obtain ⟨hm, hb⟩ := h
  rcases hg : mapGet s.candlesInProgress (mkKey tf.label (getWindowStart ts tf.seconds))
    with _ | c
  · rw [updateCandle_absent tf tick ts s hg]
    have hev := evictFold_inv tf
      ((s.candlesInProgress.map Prod.fst).filter fun k => strStartsWith k tf.label)
      s.candlesInProgress s.buffers hm hb
    constructor
    · intro e he
      rcases mapSet_mem _ _ _ e he with h' | rfl
      · exact hev.1 e h'
      · exact ⟨le_rfl, le_rfl, le_rfl, le_rfl⟩
    · exact hev.2
  · rw [updateCandle_present tf tick ts s c hg]
    constructor
    · intro e he
      rcases mapUpdate_mem _ _ _ e he with h' | ⟨e', he', heq⟩
      · exact hm e h'
      · subst heq
        obtain ⟨h1, h2, h3, h4⟩ := hm e' he'
        exact ⟨(min_le_left _ _).trans h1, h2.trans (le_max_left _ _),
          min_le_right _ _, le_max_right _ _⟩
    · exact hb

theorem forceFinalizeAll_inv (tfs : List TimeframeConfig) :
    ∀ s : BuilderState, InvC2 s → InvC2 (forceFinalizeAll tfs s) := by
  induction tfs with
  | nil => exact fun s h => h
  | cons tf tfs ih =>
    intro s h
    have hstep : forceFinalizeAll (tf :: tfs) s =
        forceFinalizeAll tfs
          ⟨(evictFold (finalizeCandle tf)
              ((s.candlesInProgress.map Prod.fst).filter fun k => strStartsWith k tf.label)
              s.candlesInProgress s.buffers).1,
           (evictFold (finalizeCandle tf)
              ((s.candlesInProgress.map Prod.fst).filter fun k => strStartsWith k tf.label)
              s.candlesInProgress s.buffers).2⟩ := rfl
    rw [hstep]
    exact ih _ (evictFold_inv tf _ s.candlesInProgress s.buffers h.1 h.2)

theorem addTick_inv (sym : String) (tfs : List TimeframeConfig) (tick : NormalizedTick)
    (s : BuilderState) (h : InvC2 s) : InvC2 (addTick sym tfs tick s) := by
  unfold addTick
  by_cases hsym : tick.symbol ≠ sym
  · rw [if_pos hsym]
    exact h
  · rw [if_neg hsym]
    clear hsym
    induction tfs generalizing s with
    | nil => exact h
    | cons tf tfs ih =>
      rw [List.foldl_cons]
      exact ih _ (updateCandle_inv tf tick tick.ts s h)

theorem runOps_inv (sym : String) (tfs : List TimeframeConfig) (ops : List BuilderOp) :
    InvC2 (runOps sym tfs ops) := by
  have h0 : InvC2 (initState tfs) := by
    constructor
    · intro e he
      exact absurd he (List.not_mem_nil e)
    · intro lb hlb c hc
      obtain ⟨tf, htf, rfl⟩ := List.mem_map.mp hlb
      exact absurd hc (List.not_mem_nil c)
  show InvC2 (ops.foldl (fun s op => applyOp sym tfs op s) (initState tfs))
  generalize initState tfs = s at h0 ⊢
  induction ops generalizing s with
  | nil => exact h0
  | cons op ops ih =>
    rw [List.foldl_cons]
    apply ih
    rcases op with t | _
    · exact addTick_inv sym tfs t s h0
    · exact forceFinalizeAll_inv tfs s h0

/-- C2: every candle finalized by the OHLC aggregator into any
buffer, over any run (ticks interleaved with forced finalizations)
from the freshly constructed builder, satisfies
`low ≤ min(open, close) ≤ max(open, close) ≤ high`. -/
theorem candle_invariant (sym : String) (tfs : List TimeframeConfig) (ops : List BuilderOp)
    (lb : List Char × BufState Candle) (hlb : lb ∈ (runOps sym tfs ops).buffers)
    (c : Candle) (hc : c ∈ lb.2.candles) :
    c.low ≤ min c.open_ c.close ∧ min c.open_ c.close ≤ max c.open_ c.close ∧
      max c.open_ c.close ≤ c.high :=
  (runOps_inv sym tfs ops).2 lb hlb c hc

/-- The 1-second timeframe. -/
def tf1s : TimeframeConfig := ⟨1, ['1', 's'], 10⟩

/-! ## C3 — buffer ordering -/

theorem windowStart_dvd (ts : Int) (sec : Nat) :
    ((sec : Int) * 1000) ∣ getWindowStart ts sec :=
  dvd_mul_left ((sec : Int) * 1000) (Int.fdiv ts ((sec : Int) * 1000))

theorem windowStart_mono (sec : Nat) (hs : 0 < sec) {a b : Int} (h : a ≤ b) :
    getWindowStart a sec ≤ getWindowStart b sec := by
  have hsec : (0 : Int) < (sec : Int) := by exact_mod_cast hs
  have hms : (0 : Int) < (sec : Int) * 1000 := by
    have : (0 : Int) < 1000 := by norm_num
    exact mul_pos hsec this
  simp only [getWindowStart]
  rw [Int.fdiv_eq_ediv _ (le_of_lt hms), Int.fdiv_eq_ediv _ (le_of_lt hms)]
  exact mul_le_mul_of_nonneg_right (Int.ediv_le_ediv hms h) (le_of_lt hms)

theorem bufPush_getLast {α : Type} (b : BufState α) (c : α) :
    ∀ x, (bufPush b c).candles.getLast? = some x → x = c := by
  intro x hx
  simp only [bufPush] at hx
  split at hx
  · rcases hb : b.candles with _ | ⟨y, l⟩
    · rw [hb] at hx
      simp at hx
    · rw [hb] at hx
      simp only [List.cons_append, List.tail_cons] at hx
      rw [List.getLast?_concat] at hx
      exact (Option.some.inj hx).symm
  · rw [List.getLast?_concat] at hx
    exact (Option.some.inj hx).symm

theorem bufPush_chain {α : Type} (R : α → α → Prop) (b : BufState α) (c : α)
    (hch : List.Chain' R b.candles) (hlast : ∀ x, b.candles.getLast? = some x → R x c) :
    List.Chain' R (bufPush b c).candles := by
  have happ : List.Chain' R (b.candles ++ [c]) := by
    rw [List.chain'_append]
    refine ⟨hch, List.chain'_singleton c, ?_⟩
    intro x hx y hy
    simp only [List.head?_cons, Option.mem_def, Option.some.injEq] at hy
    subst hy
    exact hlast x (Option.mem_def.mp hx)
  simp only [bufPush]
  split
  · exact happ.tail
  · exact happ

/-- The state invariant behind the amended C3, for a builder
configured with the single timeframe `tf`: the single buffer is a
strictly increasing list of window-aligned candles, and the (at most
one) in-progress candle sits strictly after the buffer and no later
than the window of any still-unprocessed tick. -/
def InvC3 (tf : TimeframeConfig) (s : BuilderState) (future : List NormalizedTick) : Prop :=
  ∃ bs : BufState Candle,
    s.buffers = [(tf.label, bs)] ∧
    List.Chain' (fun a b : Candle => a.datetime < b.datetime) bs.candles ∧
    (∀ c ∈ bs.candles, ((tf.seconds : Int) * 1000) ∣ c.datetime) ∧
    (s.candlesInProgress = [] ∧ bs.candles = [] ∨
      ∃ cip : CandleInProgress,
        s.candlesInProgress = [(mkKey tf.label cip.startTime, cip)] ∧
        ((tf.seconds : Int) * 1000) ∣ cip.startTime ∧
        (∀ x, bs.candles.getLast? = some x → x.datetime < cip.startTime) ∧
        (∀ t, future.head? = some t → cip.startTime ≤ getWindowStart t.ts tf.seconds))

theorem invC3_step (tf : TimeframeConfig) (hs : 0 < tf.seconds) (sym : String)
    (t : NormalizedTick) (rest : List NormalizedTick)
    (hmono : ∀ t', rest.head? = some t' → t.ts ≤ t'.ts)
    (s : BuilderState) (hinv : InvC3 tf s (t :: rest)) :
    InvC3 tf (addTick sym [tf] t s) rest := by
  obtain ⟨bs, hbuf, hch, hdvd, hcase⟩ := hinv
  show InvC3 tf (if t.symbol ≠ sym then s else updateCandle tf t t.ts s) rest
  by_cases hsym : t.symbol ≠ sym
  · rw [if_pos hsym]
    refine ⟨bs, hbuf, hch, hdvd, ?_⟩
    rcases hcase with h | ⟨cip, h1, h2, h3, h4⟩
    · exact Or.inl h
    · refine Or.inr ⟨cip, h1, h2, h3, ?_⟩
      intro t' ht'
      exact le_trans (h4 t rfl) (windowStart_mono tf.seconds hs (hmono t' ht'))
  · rw [if_neg hsym]
    obtain ⟨scip, sbuf⟩ := s
    simp only at hbuf
    subst hbuf
    rcases hcase with ⟨hemp, hbemp⟩ | ⟨cip, hcip, hcdvd, hlast, hfut⟩
    · simp only at hemp
      subst hemp
      refine ⟨bs, rfl, hch, hdvd,
        Or.inr ⟨⟨t.price, t.price, t.price, t.price, jsOrZero t.size,
          getWindowStart t.ts tf.seconds, t.ts⟩, rfl, windowStart_dvd t.ts tf.seconds,
          ?_, ?_⟩⟩
      · intro x hx
        rw [hbemp] at hx
        simp at hx
      · intro t' ht'
        exact windowStart_mono tf.seconds hs (hmono t' ht')
    · simp only at hcip
      subst hcip
      rcases hg : mapGet [(mkKey tf.label cip.startTime, cip)]
          (mkKey tf.label (getWindowStart t.ts tf.seconds)) with _ | c
      · -- new window: the single in-progress candle is finalized and replaced
        have hne : mkKey tf.label cip.startTime ≠
            mkKey tf.label (getWindowStart t.ts tf.seconds) := by
          intro heq
          rw [mapGet, if_pos heq] at hg
          exact Option.noConfusion hg
        have hlt : cip.startTime < getWindowStart t.ts tf.seconds := by
          have hle : cip.startTime ≤ getWindowStart t.ts tf.seconds := hfut t rfl
          rcases lt_or_eq_of_le hle with h | h
          · exact h
          · exact absurd (congrArg (mkKey tf.label) h) hne
        rw [updateCandle_absent tf t t.ts _ hg]
        have hsw : strStartsWith (mkKey tf.label cip.startTime) tf.label = true :=
          strStartsWith_append_self tf.label _
        have hkeys : (([(mkKey tf.label cip.startTime, cip)].map Prod.fst).filter
            fun k => strStartsWith k tf.label) = [mkKey tf.label cip.startTime] := by
          simp only [List.map_cons, List.map_nil, List.filter_cons, List.filter_nil]
          rw [if_pos hsw]
        rw [hkeys]
        have hgk : mapGet [(mkKey tf.label cip.startTime, cip)]
            (mkKey tf.label cip.startTime) = some cip := by
          rw [mapGet, if_pos rfl]
        have hdel : mapDelete [(mkKey tf.label cip.startTime, cip)]
            (mkKey tf.label cip.startTime) = [] := by
          rw [mapDelete, if_pos rfl]
          rfl
        have hfin : finalizeCandle tf cip [(tf.label, bs)] =
            [(tf.label, bufPush bs (candleOf cip))] := by
          simp [finalizeCandle, mapUpdate]
        have hev : evictFold (finalizeCandle tf) [mkKey tf.label cip.startTime]
            [(mkKey tf.label cip.startTime, cip)] [(tf.label, bs)] =
            ([], [(tf.label, bufPush bs (candleOf cip))]) := by
          simp only [evictFold, List.foldl_cons, List.foldl_nil, hgk]
          simp only [hdel, hfin]
        rw [hev]
        refine ⟨bufPush bs (candleOf cip), rfl, ?_, ?_,
          Or.inr ⟨⟨t.price, t.price, t.price, t.price, jsOrZero t.size,
            getWindowStart t.ts tf.seconds, t.ts⟩, rfl,
            windowStart_dvd t.ts tf.seconds, ?_, ?_⟩⟩
        · exact bufPush_chain _ bs (candleOf cip) hch hlast
        · exact bufPush_good _ bs (candleOf cip) hdvd hcdvd
        · intro x hx
          rw [bufPush_getLast bs (candleOf cip) x hx]
          exact hlt
        · intro t' ht'
          exact windowStart_mono tf.seconds hs (hmono t' ht')
      · -- same key: the in-progress candle is updated in place
        have hck : mkKey tf.label cip.startTime =
              mkKey tf.label (getWindowStart t.ts tf.seconds) ∧ c = cip := by
          by_cases heq : mkKey tf.label cip.startTime =
              mkKey tf.label (getWindowStart t.ts tf.seconds)
          · rw [mapGet, if_pos heq] at hg
            exact ⟨heq, (Option.some.inj hg).symm⟩
          · rw [mapGet, if_neg heq, mapGet] at hg
            exact Option.noConfusion hg
        obtain ⟨hkeq, rfl⟩ := hck
        rw [updateCandle_present tf t t.ts _ c hg]
        have hupd : mapUpdate [(mkKey tf.label c.startTime, c)]
            (mkKey tf.label (getWindowStart t.ts tf.seconds))
            (fun c =>
              { c with
                high := max c.high t.price
                low := min c.low t.price
                close := t.price
                volume := c.volume + jsOrZero t.size
                lastUpdate := t.ts }) =
            [(mkKey tf.label c.startTime,
              { c with
                high := max c.high t.price
                low := min c.low t.price
                close := t.price
                volume := c.volume + jsOrZero t.size
                lastUpdate := t.ts })] := by
          simp only [mapUpdate]
          rw [if_pos hkeq]
        rw [hupd]
        refine ⟨bs, rfl, hch, hdvd,
          Or.inr ⟨{ c with
              high := max c.high t.price
              low := min c.low t.price
              close := t.price
              volume := c.volume + jsOrZero t.size
              lastUpdate := t.ts }, rfl, hcdvd, hlast, ?_⟩⟩
        intro t' ht'
        exact le_trans (hfut t rfl) (windowStart_mono tf.seconds hs (hmono t' ht'))

theorem invC3_run (tf : TimeframeConfig) (hs : 0 < tf.seconds) (sym : String) :
    ∀ (ticks : List NormalizedTick) (s : BuilderState), InvC3 tf s ticks →
      List.Chain' (fun a b : NormalizedTick => a.ts ≤ b.ts) ticks →
      InvC3 tf (ticks.foldl (fun s t => addTick sym [tf] t s) s) [] := by
  intro ticks
  induction ticks with
  | nil => exact fun s h _ => h
  | cons t rest ih =>
    intro s h hch
    rw [List.foldl_cons]
    obtain ⟨hhead, htail⟩ := List.chain'_cons'.mp hch
    exact ih _ (invC3_step tf hs sym t rest (fun t' ht' => hhead t' ht') s h) htail

theorem chain_lt_dvd_chain (M : Int) :
    ∀ l : List Candle, List.Chain' (fun a b : Candle => a.datetime < b.datetime) l →
      (∀ c ∈ l, M ∣ c.datetime) →
      List.Chain' (fun a b : Candle =>
        a.datetime < b.datetime ∧ M ∣ (b.datetime - a.datetime)) l := by
  intro l
  induction l with
  | nil => exact fun _ _ => List.chain'_nil
  | cons c l ih =>
    intro hch hdvd
    obtain ⟨hhead, htail⟩ := List.chain'_cons'.mp hch
    refine List.chain'_cons'.mpr ⟨?_, ih htail fun x hx => hdvd x (List.mem_cons_of_mem _ hx)⟩
    intro y hy
    refine ⟨hhead y hy, ?_⟩
    exact dvd_sub
      (hdvd y (List.mem_cons_of_mem _ (List.mem_of_mem_head? hy)))
      (hdvd c (List.mem_cons.mpr (Or.inl rfl)))

/-- C3 counterexample: an out-of-order tick (timestamp before the
in-progress window's start) opens an earlier window, whose candle is
finalized *after* the later window's candle — the buffer then holds
the pair (1000, 0), violating both the strict ordering and the
claim's explicit out-of-order clause. -/
theorem buffer_chrono_counterexample :
    ¬ (∀ lb ∈ (runTicks "S" [tf1s]
          [⟨1000, 1, none, "S", "e"⟩, ⟨0, 1, none, "S", "e"⟩,
           ⟨2000, 1, none, "S", "e"⟩]).buffers,
        List.Chain'
          (fun a b : Candle => a.datetime < b.datetime ∧
            ((tf1s.seconds : Int) * 1000) ∣ (b.datetime - a.datetime)) lb.2.candles) := by
  intro h
  have hmem : ((['1', 's'], ⟨10, [⟨1000, 1, 1, 1, 1, 0⟩, ⟨0, 1, 1, 1, 1, 0⟩]⟩) :
      List Char × BufState Candle) ∈ (runTicks "S" [tf1s]
        [⟨1000, 1, none, "S", "e"⟩, ⟨0, 1, none, "S", "e"⟩,
         ⟨2000, 1, none, "S", "e"⟩]).buffers := by decide
  have hch := h _ hmem
  obtain ⟨h1, -⟩ := List.chain'_cons'.mp hch
  have h2 := h1 ⟨0, 1, 1, 1, 1, 0⟩ rfl
  exact absurd h2.1 (by decide)

/-- C3 amended: for a builder over a single timeframe fed ticks in
non-decreasing timestamp order, every consecutive pair of buffer
records has strictly increasing datetimes whose difference is a
multiple of the timeframe's milliseconds (hence of its seconds).
Out-of-order ticks violate the property (see the counterexample):
the finalized earlier-window candle is pushed after a later-window
one. -/
theorem buffer_chrono_amended (tf : TimeframeConfig) (hsec : 0 < tf.seconds) (sym : String)
    (ticks : List NormalizedTick)
    (hmono : List.Chain' (fun a b : NormalizedTick => a.ts ≤ b.ts) ticks)
    (lb : List Char × BufState Candle)
    (hmem : lb ∈ (runTicks sym [tf] ticks).buffers) :
    List.Chain'
      (fun a b : Candle => a.datetime < b.datetime ∧
        ((tf.seconds : Int) * 1000) ∣ (b.datetime - a.datetime)) lb.2.candles := by
  have h0 : InvC3 tf (initState [tf]) ticks := by
    refine ⟨⟨tf.bufferSize, []⟩, rfl, List.chain'_nil, ?_, Or.inl ⟨rfl, rfl⟩⟩
    intro c hc
    exact absurd hc (List.not_mem_nil c)
  have hfin := invC3_run tf hsec sym ticks (initState [tf]) h0 hmono
  obtain ⟨bs, hbuf, hch, hdvd, -⟩ := hfin
  have hmem' : lb ∈ [(tf.label, bs)] := by
    rw [← hbuf]
    exact hmem
  rw [List.mem_singleton.mp hmem']
  exact chain_lt_dvd_chain _ bs.candles hch hdvd

/-! ## C4 — eviction scope of `add-tick` -/

theorem updateCandle_absent_shape (tf : TimeframeConfig) (tick : NormalizedTick) (ts : Int)
    (s : BuilderState)
    (habs : mapGet s.candlesInProgress (mkKey tf.label (getWindowStart ts tf.seconds)) =
      none) :
    (updateCandle tf tick ts s).candlesInProgress =
      (s.candlesInProgress.filter fun e => !(strStartsWith e.1 tf.label)) ++
        [(mkKey tf.label (getWindowStart ts tf.seconds),
          ⟨tick.price, tick.price, tick.price, tick.price, jsOrZero tick.size,
           getWindowStart ts tf.seconds, ts⟩)] := by
  rw [updateCandle_absent tf tick ts s habs]
  show mapSet _ _ _ = _
  rw [evictFold_keys_fst]
  apply mapSet_of_get_none
  rw [mapGet_eq_none_iff]
  intro e he hkey
  rw [List.mem_filter] at he
  obtain ⟨-, hq⟩ := he
  have hsw : strStartsWith e.1 tf.label = true := by
    rw [hkey]
    exact strStartsWith_append_self tf.label _
  rw [hsw] at hq
  simp at hq

theorem updateCandle_absent_buffers (tf : TimeframeConfig) (tick : NormalizedTick)
    (ts : Int) (s : BuilderState)
    (habs : mapGet s.candlesInProgress (mkKey tf.label (getWindowStart ts tf.seconds)) =
      none)
    (hnd : (s.candlesInProgress.map Prod.fst).Nodup) :
    (updateCandle tf tick ts s).buffers =
      ((s.candlesInProgress.filter fun e => strStartsWith e.1 tf.label).map
        Prod.snd).foldl (fun acc v => finalizeCandle tf v acc) s.buffers := by
  rw [updateCandle_absent tf tick ts s habs]
  exact evictFold_keys_snd _ _ _ _ hnd

theorem foldl_finalize_get_eq (tf : TimeframeConfig) :
    ∀ (vs : List CandleInProgress) (bufs : List (List Char × BufState Candle)),
      mapGet (vs.foldl (fun acc v => finalizeCandle tf v acc) bufs) tf.label =
        (mapGet bufs tf.label).map
          (fun b => vs.foldl (fun b v => bufPush b (candleOf v)) b) := by
  intro vs
  induction vs with
  | nil =>
    intro bufs
    rcases h : mapGet bufs tf.label with _ | b <;> simp [h]
  | cons v vs ih =>
    intro bufs
    rw [List.foldl_cons]
    show mapGet (vs.foldl (fun acc v => finalizeCandle tf v acc)
        (mapUpdate bufs tf.label fun b => bufPush b (candleOf v))) tf.label = _
    rw [ih, mapGet_mapUpdate_eq, Option.map_map]
    rfl

theorem foldl_finalize_get_ne (tf : TimeframeConfig) (lbl : List Char)
    (h : lbl ≠ tf.label) :
    ∀ (vs : List CandleInProgress) (bufs : List (List Char × BufState Candle)),
      mapGet (vs.foldl (fun acc v => finalizeCandle tf v acc) bufs) lbl =
        mapGet bufs lbl := by
  intro vs
  induction vs with
  | nil => exact fun bufs => rfl
  | cons v vs ih =>
    intro bufs
    rw [List.foldl_cons]
    show mapGet (vs.foldl (fun acc v => finalizeCandle tf v acc)
        (mapUpdate bufs tf.label fun b => bufPush b (candleOf v))) lbl = _
    rw [ih, mapGet_mapUpdate_ne _ _ _ _ h]

theorem length_filter_key {V : Type} (m : List (List Char × V)) (lbl : List Char) :
    (m.filter fun e => strStartsWith e.1 lbl).length =
      ((m.map Prod.fst).filter fun k => strStartsWith k lbl).length := by
  induction m with
  | nil => rfl
  | cons e m ih =>
    by_cases hq : strStartsWith e.1 lbl
    · simp [List.filter_cons, hq, ih]
    · simp [List.filter_cons, hq, ih]

theorem filtered_keys_nodup {V : Type} (m : List (List Char × V))
    (hnd : (m.map Prod.fst).Nodup) (q : (List Char × V) → Bool) :
    ((m.filter q).map Prod.fst).Nodup :=
  ((List.filter_sublist m).map Prod.fst).nodup hnd

theorem updateCandle_meta (tfs : List TimeframeConfig) (tf : TimeframeConfig)
    (htf : tf ∈ tfs) (tick : NormalizedTick) (ts : Int) (s : BuilderState)
    (hnd : (s.candlesInProgress.map Prod.fst).Nodup)
    (hown : ∀ e ∈ s.candlesInProgress, ∃ tf' ∈ tfs, ∃ ws : Int,
      e.1 = mkKey tf'.label ws)
    (hpf : ∀ tf1 ∈ tfs, ∀ tf2 ∈ tfs, ∀ ws : Int,
      strStartsWith (mkKey tf2.label ws) tf1.label = true → tf1.label = tf2.label) :
    ((updateCandle tf tick ts s).candlesInProgress.map Prod.fst).Nodup ∧
    (∀ e ∈ (updateCandle tf tick ts s).candlesInProgress, ∃ tf' ∈ tfs, ∃ ws : Int,
      e.1 = mkKey tf'.label ws) ∧
    (∀ tf' ∈ tfs,
      ((updateCandle tf tick ts s).candlesInProgress.filter fun e =>
        strStartsWith e.1 tf'.label).length ≤
      max 1 ((s.candlesInProgress.filter fun e =>
        strStartsWith e.1 tf'.label).length)) := by
  rcases hg : mapGet s.candlesInProgress (mkKey tf.label (getWindowStart ts tf.seconds))
    with _ | c
  · rw [updateCandle_absent_shape tf tick ts s hg]
    set key := mkKey tf.label (getWindowStart ts tf.seconds) with hkeydef
    have hfilterK : ∀ e ∈ s.candlesInProgress.filter
        (fun e => !(strStartsWith e.1 tf.label)), strStartsWith e.1 tf.label = false := by
      intro e he
      obtain ⟨-, hq⟩ := List.mem_filter.mp he
      rcases hb : strStartsWith e.1 tf.label with _ | _
      · rfl
      · rw [hb] at hq
        simp at hq
    refine ⟨?_, ?_, ?_⟩
    · rw [List.map_append, List.nodup_append]
      refine ⟨filtered_keys_nodup _ hnd _, List.nodup_singleton _, ?_⟩
      intro k hk1 hk2
      simp only [List.map_cons, List.map_nil, List.mem_singleton] at hk2
      subst hk2
      obtain ⟨e, he, hek⟩ := List.mem_map.mp hk1
      have hf := hfilterK e he
      rw [hek, hkeydef] at hf
      have htrue : strStartsWith (mkKey tf.label (getWindowStart ts tf.seconds))
          tf.label = true := strStartsWith_append_self tf.label _
      rw [htrue] at hf
      exact Bool.noConfusion hf
    · intro e he
      rcases List.mem_append.mp he with h | h
      · exact hown e (List.mem_of_mem_filter h)
      · rw [List.mem_singleton.mp h]
        exact ⟨tf, htf, getWindowStart ts tf.seconds, rfl⟩
    · intro tf' htf'
      rw [List.filter_append, List.length_append]
      rcases hq : strStartsWith key tf'.label with _ | _
      · have hone : ([(key,
            (⟨tick.price, tick.price, tick.price, tick.price, jsOrZero tick.size,
              getWindowStart ts tf.seconds, ts⟩ : CandleInProgress))].filter
            fun e => strStartsWith e.1 tf'.label).length = 0 := by
          simp [List.filter_cons, hq]
        rw [hone]
        have hle : ((s.candlesInProgress.filter fun e =>
            !(strStartsWith e.1 tf.label)).filter fun e =>
            strStartsWith e.1 tf'.label).length ≤
            (s.candlesInProgress.filter fun e => strStartsWith e.1 tf'.label).length := by
          rw [List.filter_filter, ← List.countP_eq_length_filter,
            ← List.countP_eq_length_filter]
          apply List.countP_mono_left
          intro e he hb
          exact (Bool.and_elim_left hb)
        omega
      · have hlab : tf'.label = tf.label := hpf tf' htf' tf htf _ hq
        have hzero : ((s.candlesInProgress.filter fun e =>
            !(strStartsWith e.1 tf.label)).filter fun e =>
            strStartsWith e.1 tf'.label).length = 0 := by
          rw [List.length_eq_zero]
          rw [List.filter_eq_nil_iff]
          intro e he
          have hf := hfilterK e he
          rw [hlab, hf]
          simp
        rw [hzero]
        have hone : ([(key,
            (⟨tick.price, tick.price, tick.price, tick.price, jsOrZero tick.size,
              getWindowStart ts tf.seconds, ts⟩ : CandleInProgress))].filter
            fun e => strStartsWith e.1 tf'.label).length ≤ 1 := by
          rcases hqq : strStartsWith key tf'.label with _ | _ <;>
            simp [List.filter_cons, hqq]
        omega
  · rw [updateCandle_present tf tick ts s c hg]
    have hkeys : ((mapUpdate s.candlesInProgress
        (mkKey tf.label (getWindowStart ts tf.seconds)) fun c =>
          { c with
            high := max c.high tick.price
            low := min c.low tick.price
            close := tick.price
            volume := c.volume + jsOrZero tick.size
            lastUpdate := ts }).map Prod.fst) = s.candlesInProgress.map Prod.fst :=
      mapUpdate_map_fst _ _ _
    refine ⟨?_, ?_, ?_⟩
    · show ((mapUpdate s.candlesInProgress _ _).map Prod.fst).Nodup
      rw [hkeys]
      exact hnd
    · intro e he
      rcases mapUpdate_mem _ _ _ e he with h | ⟨e', he', heq⟩
      · exact hown e h
      · obtain ⟨tf', htf', ws', hk⟩ := hown e' he'
        exact ⟨tf', htf', ws', by rw [heq]; exact hk⟩
    · intro tf' htf'
      dsimp only
      rw [length_filter_key, length_filter_key, hkeys]
      exact le_max_right _ _

end Conn

namespace Conn

theorem foldl_updateCandle_meta (tfs : List TimeframeConfig) (tick : NormalizedTick)
    (ts : Int)
    (hpf : ∀ tf1 ∈ tfs, ∀ tf2 ∈ tfs, ∀ ws : Int,
      strStartsWith (mkKey tf2.label ws) tf1.label = true → tf1.label = tf2.label) :
    ∀ (tfsI : List TimeframeConfig), (∀ x ∈ tfsI, x ∈ tfs) →
    ∀ s : BuilderState,
      (s.candlesInProgress.map Prod.fst).Nodup →
      (∀ e ∈ s.candlesInProgress, ∃ tf' ∈ tfs, ∃ ws : Int, e.1 = mkKey tf'.label ws) →
      (∀ tf' ∈ tfs, (s.candlesInProgress.filter fun e =>
        strStartsWith e.1 tf'.label).length ≤ 1) →
      (((tfsI.foldl (fun s tf => updateCandle tf tick ts s) s).candlesInProgress.map
        Prod.fst).Nodup ∧
      (∀ e ∈ (tfsI.foldl (fun s tf => updateCandle tf tick ts s) s).candlesInProgress,
        ∃ tf' ∈ tfs, ∃ ws : Int, e.1 = mkKey tf'.label ws) ∧
      (∀ tf' ∈ tfs, ((tfsI.foldl (fun s tf =>
        updateCandle tf tick ts s) s).candlesInProgress.filter fun e =>
        strStartsWith e.1 tf'.label).length ≤ 1)) := by
  intro tfsI
  induction tfsI with
  | nil => exact fun _ s h1 h2 h3 => ⟨h1, h2, h3⟩
  | cons tf0 rest ih =>
    intro hsub s h1 h2 h3
    rw [List.foldl_cons]
    have htf0 : tf0 ∈ tfs := hsub tf0 (List.mem_cons.mpr (Or.inl rfl))
    obtain ⟨m1, m2, m3⟩ := updateCandle_meta tfs tf0 htf0 tick ts s h1 h2 hpf
    apply ih (fun x hx => hsub x (List.mem_cons_of_mem _ hx)) _ m1 m2
    intro tf' htf'
    exact le_trans (m3 tf' htf') (max_le le_rfl (h3 tf' htf'))

/-- The two prefix-colliding timeframes of the C4 counterexample:
the key prefix filter `k.startsWith(tf.label)` lets timeframe `1m`
capture the keys of timeframe `1m0`. -/
def tfsC4 : List TimeframeConfig := [⟨60, ['1', 'm'], 10⟩, ⟨600, ['1', 'm', '0'], 10⟩]

/-- C4 counterexample: with (legal, uniquely labelled) timeframes
`1m` and `1m0`, after one tick both in-progress keys match the `1m`
prefix filter; the second tick, opening a new `1m` window, finalizes
and evicts the `1m0` in-progress candle as well — a candle of
another timeframe — and pushes it into the `1m` buffer, which ends
up with two candles while the `1m0` buffer stays empty. -/
theorem addTick_eviction_counterexample :
    ((runTicks "S" tfsC4 [⟨0, 1, none, "S", "e"⟩]).candlesInProgress.filter
      fun e => strStartsWith e.1 ['1', 'm']).length = 2 ∧
    (runTicks "S" tfsC4 [⟨0, 1, none, "S", "e"⟩]).candlesInProgress.map Prod.fst =
      [mkKey ['1', 'm'] 0, mkKey ['1', 'm', '0'] 0] ∧
    (runTicks "S" tfsC4
        [⟨0, 1, none, "S", "e"⟩, ⟨60000, 2, none, "S", "e"⟩]).candlesInProgress.map
      Prod.fst = [mkKey ['1', 'm'] 60000, mkKey ['1', 'm', '0'] 0] ∧
    mapGet (runTicks "S" tfsC4
        [⟨0, 1, none, "S", "e"⟩, ⟨60000, 2, none, "S", "e"⟩]).buffers ['1', 'm'] =
      some ⟨10, [⟨0, 1, 1, 1, 1, 0⟩, ⟨0, 1, 1, 1, 1, 0⟩]⟩ ∧
    mapGet (runTicks "S" tfsC4
        [⟨0, 1, none, "S", "e"⟩, ⟨60000, 2, none, "S", "e"⟩]).buffers ['1', 'm', '0'] =
      some ⟨10, []⟩ := by
  decide

/-- C4 amended: provided no timeframe's key of the form
`label_windowStart` matches another timeframe's label prefix (true
of ordinary label sets such as `1s/1m/5m/…`, but violable — see the
counterexample), an `updateCandle` step for a `(timeframe,
window-start)` pair with no in-progress candle evicts exactly the
same-timeframe in-progress candles (conjuncts 1 and 2), pushes each
of them, in order, into that same timeframe's buffer (conjunct 3),
leaves every other timeframe's buffer untouched (conjunct 4), and
creates the new in-progress candle with
`open = high = low = close = tick.price` and
`volume = tick.size ?? 0` (the literal record in conjunct 1);
and after every `addTick` at most one in-progress candle exists per
timeframe (conjunct 5). -/
theorem addTick_eviction_amended (tfs : List TimeframeConfig) (tf : TimeframeConfig)
    (htf : tf ∈ tfs) (sym : String) (tick : NormalizedTick) (ts : Int) (s : BuilderState)
    (hnd : (s.candlesInProgress.map Prod.fst).Nodup)
    (hown : ∀ e ∈ s.candlesInProgress, ∃ tf' ∈ tfs, ∃ ws : Int, e.1 = mkKey tf'.label ws)
    (hpf : ∀ tf1 ∈ tfs, ∀ tf2 ∈ tfs, ∀ ws : Int,
      strStartsWith (mkKey tf2.label ws) tf1.label = true → tf1.label = tf2.label)
    (habs : mapGet s.candlesInProgress
      (mkKey tf.label (getWindowStart ts tf.seconds)) = none)
    (hcnt : ∀ tf' ∈ tfs, (s.candlesInProgress.filter fun e =>
      strStartsWith e.1 tf'.label).length ≤ 1) :
    (updateCandle tf tick ts s).candlesInProgress =
      (s.candlesInProgress.filter fun e => !(strStartsWith e.1 tf.label)) ++
        [(mkKey tf.label (getWindowStart ts tf.seconds),
          ⟨tick.price, tick.price, tick.price, tick.price, jsOrZero tick.size,
           getWindowStart ts tf.seconds, ts⟩)] ∧
    (∀ e ∈ s.candlesInProgress,
      (strStartsWith e.1 tf.label = true ↔ ∃ ws' : Int, e.1 = mkKey tf.label ws')) ∧
    mapGet (updateCandle tf tick ts s).buffers tf.label =
      (mapGet s.buffers tf.label).map (fun b =>
        ((s.candlesInProgress.filter fun e =>
          strStartsWith e.1 tf.label).map Prod.snd).foldl
          (fun b v => bufPush b (candleOf v)) b) ∧
    (∀ lbl : List Char, lbl ≠ tf.label →
      mapGet (updateCandle tf tick ts s).buffers lbl = mapGet s.buffers lbl) ∧
    (∀ tf' ∈ tfs, ((addTick sym tfs tick s).candlesInProgress.filter fun e =>
      strStartsWith e.1 tf'.label).length ≤ 1) := by
  refine ⟨updateCandle_absent_shape tf tick ts s habs, ?_, ?_, ?_, ?_⟩
  · intro e he
    constructor
    · intro hsw
      obtain ⟨tf2, htf2, ws2, hk⟩ := hown e he
      rw [hk] at hsw
      have hlab := hpf tf htf tf2 htf2 ws2 hsw
      exact ⟨ws2, by rw [hk, hlab]⟩
    · rintro ⟨ws', hk⟩
      rw [hk]
      exact strStartsWith_append_self tf.label _
  · rw [updateCandle_absent_buffers tf tick ts s habs hnd]
    exact foldl_finalize_get_eq tf _ s.buffers
  · intro lbl hlbl
    rw [updateCandle_absent_buffers tf tick ts s habs hnd]
    exact foldl_finalize_get_ne tf lbl hlbl _ s.buffers
  · show ∀ tf' ∈ tfs, (((if tick.symbol ≠ sym then s else
      tfs.foldl (fun s tf => updateCandle tf tick tick.ts s) s)).candlesInProgress.filter
      fun e => strStartsWith e.1 tf'.label).length ≤ 1
    by_cases hsym : tick.symbol ≠ sym
    · rw [if_pos hsym]
      exact hcnt
    · rw [if_neg hsym]
      exact (foldl_updateCandle_meta tfs tick tick.ts hpf tfs (fun x hx => hx) s
        hnd hown hcnt).2.2

/-- The 5-minute timeframe. -/
def tf5m : TimeframeConfig := ⟨300, ['5', 'm'], 10⟩

/-- C4 amended, witness: in a `1m` / `5m` configuration holding one
in-progress `1m` candle at window 0, a tick at 60 000 ms evicts
exactly that candle into the `1m` buffer and creates the new one. -/
theorem addTick_eviction_amended_witness :
    (updateCandle tf1m ⟨60000, 2, none, "S", "e"⟩ 60000 sWit).candlesInProgress =
      [(mkKey tf1m.label 60000, ⟨2, 2, 2, 2, 0, 60000, 60000⟩)] ∧
    mapGet (updateCandle tf1m ⟨60000, 2, none, "S", "e"⟩ 60000 sWit).buffers tf1m.label =
      some ⟨10, [⟨0, 1, 1, 1, 1, 0⟩]⟩ := by
  have hpf : ∀ tf1 ∈ [tf1m, tf5m], ∀ tf2 ∈ [tf1m, tf5m], ∀ ws : Int,
      strStartsWith (mkKey tf2.label ws) tf1.label = true → tf1.label = tf2.label := by
    intro tf1 h1 tf2 h2 ws hsw
    rcases List.mem_cons.mp h1 with rfl | h1
    · rcases List.mem_cons.mp h2 with rfl | h2
      · rfl
      · rcases List.mem_cons.mp h2 with rfl | h2
        · exfalso
          simp [tf1m, tf5m, mkKey, strStartsWith] at hsw
        · exact absurd h2 (List.not_mem_nil _)
    · rcases List.mem_cons.mp h1 with rfl | h1
      · rcases List.mem_cons.mp h2 with rfl | h2
        · exfalso
          simp [tf1m, tf5m, mkKey, strStartsWith] at hsw
        · rcases List.mem_cons.mp h2 with rfl | h2
          · rfl
          · exact absurd h2 (List.not_mem_nil _)
      · exact absurd h1 (List.not_mem_nil _)
  have hown : ∀ e ∈ sWit.candlesInProgress, ∃ tf' ∈ [tf1m, tf5m], ∃ ws : Int,
      e.1 = mkKey tf'.label ws := by
    intro e he
    rw [List.mem_singleton.mp he]
    exact ⟨tf1m, List.mem_cons.mpr (Or.inl rfl), 0, rfl⟩
  have h := addTick_eviction_amended [tf1m, tf5m] tf1m
    (List.mem_cons.mpr (Or.inl rfl)) "S" ⟨60000, 2, none, "S", "e"⟩ 60000 sWit
    (by decide) hown hpf (by decide) (by decide)
  constructor
  · rw [h.1]
    decide
  · rw [h.2.2.1]
    decide

/-- C3 amended, witness: three in-order ticks leave a buffer of two
properly spaced candles. -/
theorem buffer_chrono_amended_witness :
    List.Chain'
      (fun a b : Candle => a.datetime < b.datetime ∧
        ((tf1s.seconds : Int) * 1000) ∣ (b.datetime - a.datetime))
      ((⟨['1', 's'], ⟨10, [⟨0, 2, 2, 2, 2, 0⟩, ⟨1000, 3, 3, 3, 3, 0⟩]⟩⟩ :
        List Char × BufState Candle)).2.candles :=
  buffer_chrono_amended tf1s (by decide) "S"
    [⟨0, 2, none, "S", "e"⟩, ⟨1000, 3, none, "S", "e"⟩, ⟨2500, 4, none, "S", "e"⟩]
    (List.chain'_cons.mpr ⟨by decide, List.chain'_cons.mpr ⟨by decide,
      List.chain'_singleton _⟩⟩)
    ⟨['1', 's'], ⟨10, [⟨0, 2, 2, 2, 2, 0⟩, ⟨1000, 3, 3, 3, 3, 0⟩]⟩⟩
    (by decide)

/-- C2 witness: a two-tick run that finalizes one candle. -/
theorem candle_invariant_witness :
    (⟨0, 2, 2, 2, 2, 0⟩ : Candle).low ≤
        min (⟨0, 2, 2, 2, 2, 0⟩ : Candle).open_ (⟨0, 2, 2, 2, 2, 0⟩ : Candle).close ∧
      min (⟨0, 2, 2, 2, 2, 0⟩ : Candle).open_ (⟨0, 2, 2, 2, 2, 0⟩ : Candle).close ≤
        max (⟨0, 2, 2, 2, 2, 0⟩ : Candle).open_ (⟨0, 2, 2, 2, 2, 0⟩ : Candle).close ∧
      max (⟨0, 2, 2, 2, 2, 0⟩ : Candle).open_ (⟨0, 2, 2, 2, 2, 0⟩ : Candle).close ≤
        (⟨0, 2, 2, 2, 2, 0⟩ : Candle).high :=
  candle_invariant "S" [tf1s]
    [.tick ⟨0, 2, none, "S", "e"⟩, .tick ⟨1000, 3, none, "S", "e"⟩]
    (⟨['1', 's'], ⟨10, [⟨0, 2, 2, 2, 2, 0⟩]⟩⟩) (by decide)
    ⟨0, 2, 2, 2, 2, 0⟩ (by decide)

end Conn
